import Mathlib

/-!
Verification of the data-cleaning pipeline in `data_cleaning.py`.

A pandas DataFrame is modelled as an ordered list of named, dtype-tagged
columns of cells.  Python strings are modelled as lists of Unicode code
points (`PyStr`); float64 values are modelled as exact unnormalized
fractions over `Int`/`Nat` (`Frac`), with `fracVal` giving the rational
value.  Stages that can raise (KeyError on a missing column,
AttributeError from the `.str` accessor on a non-object column,
TypeError from `median` on text, unsafe `astype` casts) are modelled as
functions into `Option Table`, `none` meaning the stage raises.
-/

/-- A Python string, as its list of Unicode code points. -/
abbrev PyStr := List Nat

/-- Code points of a Lean string literal. -/
def pystr (s : String) : PyStr := s.data.map Char.toNat

/-- An exact fraction: the model of a float64 value. Not kept normalized. -/
structure Frac where
  n : Int
  d : Nat
deriving DecidableEq

/-- The rational value of a `Frac`. -/
def fracVal (q : Frac) : ℚ := (q.n : ℚ) / (q.d : ℚ)

/-- Comparison of fractions by cross multiplication (denominators positive). -/
def leF (a b : Frac) : Bool := decide (a.n * (b.d : Int) ≤ b.n * (a.d : Int))

/-- A cell of a DataFrame column: NaN/None, text, float, Int64 or bool. -/
inductive Cell where
  | null : Cell
  | str : PyStr → Cell
  | num : Frac → Cell
  | int : Int → Cell
  | bool : Bool → Cell
deriving DecidableEq

/-- The dtype tag of a pandas column. -/
inductive Dtype where
  | object : Dtype
  | float64 : Dtype
  | int64N : Dtype
  | boolN : Dtype
deriving DecidableEq

/-- A named column: dtype tag plus the cells. -/
structure Col where
  name : PyStr
  dtype : Dtype
  cells : List Cell
deriving DecidableEq

/-- A DataFrame: an ordered list of named columns. -/
structure Table where
  cols : List Col
deriving DecidableEq

/-- Column selection `df[n]`: the first column named `n`, if any. -/
def getCol (t : Table) (n : PyStr) : Option Col := t.cols.find? (fun c => c.name == n)

/-- Whether a column named `n` exists. -/
def hasCol (t : Table) (n : PyStr) : Bool := (getCol t n).isSome

/-- Column assignment `df[n] = s`: replace the column if present, else append. -/
def setCol (t : Table) (n : PyStr) (d : Dtype) (cs : List Cell) : Table :=
  if hasCol t n then ⟨t.cols.map (fun c => if c.name == n then ⟨n, d, cs⟩ else c)⟩
  else ⟨t.cols ++ [⟨n, d, cs⟩]⟩

/-- The `.str` accessor: raises unless the column has object dtype. -/
def strAcc (c : Col) : Option (List Cell) :=
  if c.dtype = Dtype.object then some c.cells else none

/-- `pd.isnull` on one cell. -/
def isNullCell : Cell → Bool
  | Cell.null => true
  | _ => false

/-- Whether a cell is text. -/
def isStrCell : Cell → Bool
  | Cell.str _ => true
  | _ => false

/-- The names of the columns, in order. -/
def nameList (t : Table) : List PyStr := t.cols.map Col.name

/-- The column names are pairwise distinct. -/
def namesNodup (t : Table) : Prop := (nameList t).Nodup

/-! ### Column names used by the pipeline -/

def gname : PyStr := pystr ("gender")

def sname : PyStr := pystr ("state")

def ename : PyStr := pystr ("education")

def vname : PyStr := pystr ("vehicle_class")

def clvName : PyStr := pystr ("customer_lifetime_value")

def nocName : PyStr := pystr ("number_of_open_complaints")

def cmName : PyStr := pystr ("complaints_missing")

def custName : PyStr := pystr ("customer")

def ptName : PyStr := pystr ("policy_type")

def tcaName : PyStr := pystr ("total_claim_amount")

def mpaName : PyStr := pystr ("monthly_premium_auto")

def ciName : PyStr := pystr ("customer_income")

/-! ### Stage 1: clean_column_names -/

/-- ASCII lowercasing of one code point (`str.lower`). -/
def lowerChar (c : Nat) : Nat := if 65 ≤ c ∧ c ≤ 90 then c + 32 else c

/-- ASCII uppercasing of one code point (`str.upper`). -/
def upperChar (c : Nat) : Nat := if 97 ≤ c ∧ c ≤ 122 then c - 32 else c

/-- `df.columns.str.lower()` on one name. -/
def pyLower (s : PyStr) : PyStr := s.map lowerChar

/-- `.str.upper()` on one string. -/
def pyUpper (s : PyStr) : PyStr := s.map upperChar

/-- One code point of `.str.replace(' ', '_')`. -/
def underChar (c : Nat) : Nat := if c = 32 then 95 else c

/-- `df.columns.str.replace(' ', '_')` on one name. -/
def underscoreSpaces (s : PyStr) : PyStr := s.map underChar

/-- The explicit renames `st` to `state` and `income` to `customer_income`. -/
def renameCol (m : PyStr) : PyStr :=
  if m = pystr ("st") then sname
  else if m = pystr ("income") then ciName
  else m

/-- The whole transformation stage 1 applies to one column name. -/
def cleanName (m : PyStr) : PyStr := renameCol (underscoreSpaces (pyLower m))

/-- Stage 1: lowercase, underscore and rename every column name. Total. -/
def clean_column_names (t : Table) : Table :=
  ⟨t.cols.map (fun c => ⟨cleanName c.name, c.dtype, c.cells⟩)⟩

/-! ### Stages 2-5: the single-column normalizers -/

/-- `series.str.contains(r'^[..]', na=False)` for a leading character class:
true only for text cells whose first code point is one of `codes`. -/
def startsAny (codes : List Nat) : Cell → Bool
  | Cell.str (ch :: _) => codes.contains ch
  | _ => false

/-- `df.loc[mask, col] = v`: overwrite the cells where the mask holds. -/
def maskAssign (p : Cell → Bool) (v : Cell) (cs : List Cell) : List Cell :=
  cs.map (fun c => if p c then v else c)

/-- The common shape of stages 2-5: read column `n` (KeyError when absent),
use the `.str` accessor (raises on a non-object column), transform the
cells and write the column back with object dtype. -/
def locStage (n : PyStr) (f : List Cell → List Cell) (t : Table) : Option Table := do
  let col ← getCol t n
  let cs ← strAcc col
  return setCol t n Dtype.object (f cs)

/-- The two masked assignments of `standardize_gender`: `^[Ff]` to `F`
first, then `^[Mm]` to `M` on the updated column. -/
def genderCells (cs : List Cell) : List Cell :=
  maskAssign (startsAny [77, 109]) (Cell.str [77])
    (maskAssign (startsAny [70, 102]) (Cell.str [70]) cs)

/-- Stage 2: standardize the gender column. -/
def standardize_gender (t : Table) : Option Table := locStage gname genderCells t

/-- The fixed 51-entry state abbreviation map of `standardize_state`. -/
def state_mapping : List (PyStr × PyStr) :=
  [(pystr ("AL"), pystr ("ALABAMA")), (pystr ("AK"), pystr ("ALASKA")),
   (pystr ("AZ"), pystr ("ARIZONA")), (pystr ("AR"), pystr ("ARKANSAS")),
   (pystr ("CA"), pystr ("CALIFORNIA")), (pystr ("CALI"), pystr ("CALIFORNIA")),
   (pystr ("CO"), pystr ("COLORADO")), (pystr ("CT"), pystr ("CONNECTICUT")),
   (pystr ("DE"), pystr ("DELAWARE")), (pystr ("FL"), pystr ("FLORIDA")),
   (pystr ("GA"), pystr ("GEORGIA")), (pystr ("HI"), pystr ("HAWAII")),
   (pystr ("ID"), pystr ("IDAHO")), (pystr ("IL"), pystr ("ILLINOIS")),
   (pystr ("IN"), pystr ("INDIANA")), (pystr ("IA"), pystr ("IOWA")),
   (pystr ("KS"), pystr ("KANSAS")), (pystr ("KY"), pystr ("KENTUCKY")),
   (pystr ("LA"), pystr ("LOUISIANA")), (pystr ("ME"), pystr ("MAINE")),
   (pystr ("MD"), pystr ("MARYLAND")), (pystr ("MA"), pystr ("MASSACHUSETTS")),
   (pystr ("MI"), pystr ("MICHIGAN")), (pystr ("MN"), pystr ("MINNESOTA")),
   (pystr ("MS"), pystr ("MISSISSIPPI")), (pystr ("MO"), pystr ("MISSOURI")),
   (pystr ("MT"), pystr ("MONTANA")), (pystr ("NE"), pystr ("NEBRASKA")),
   (pystr ("NV"), pystr ("NEVADA")), (pystr ("NH"), pystr ("NEW HAMPSHIRE")),
   (pystr ("NJ"), pystr ("NEW JERSEY")), (pystr ("NM"), pystr ("NEW MEXICO")),
   (pystr ("NY"), pystr ("NEW YORK")), (pystr ("NC"), pystr ("NORTH CAROLINA")),
   (pystr ("ND"), pystr ("NORTH DAKOTA")), (pystr ("OH"), pystr ("OHIO")),
   (pystr ("OK"), pystr ("OKLAHOMA")), (pystr ("OR"), pystr ("OREGON")),
   (pystr ("PA"), pystr ("PENNSYLVANIA")), (pystr ("RI"), pystr ("RHODE ISLAND")),
   (pystr ("SC"), pystr ("SOUTH CAROLINA")), (pystr ("SD"), pystr ("SOUTH DAKOTA")),
   (pystr ("TN"), pystr ("TENNESSEE")), (pystr ("TX"), pystr ("TEXAS")),
   (pystr ("UT"), pystr ("UTAH")), (pystr ("VT"), pystr ("VERMONT")),
   (pystr ("VA"), pystr ("VIRGINIA")), (pystr ("WA"), pystr ("WASHINGTON")),
   (pystr ("WV"), pystr ("WEST VIRGINIA")), (pystr ("WI"), pystr ("WISCONSIN")),
   (pystr ("WY"), pystr ("WYOMING"))]

/-- Dictionary lookup in the state abbreviation map. -/
def lookupState (v : PyStr) : Option PyStr :=
  (state_mapping.find? (fun p => p.1 == v)).map Prod.snd

/-- `.str.upper()` on one cell: text is uppercased, everything else
(including NaN) becomes NaN. -/
def upperCell : Cell → Cell
  | Cell.str s => Cell.str (pyUpper s)
  | _ => Cell.null

/-- `series.replace(state_mapping)` on one cell: a text cell equal to a key
is replaced by the mapped full name, all other cells are unchanged. -/
def replaceCell : Cell → Cell
  | Cell.str v =>
      match lookupState v with
      | some full => Cell.str full
      | none => Cell.str v
  | c => c

/-- The column transformation of `standardize_state`. -/
def stateCells (cs : List Cell) : List Cell := (cs.map upperCell).map replaceCell

/-- Stage 3: standardize the state column. -/
def standardize_state (t : Table) : Option Table := locStage sname stateCells t

/-- The masked assignment of `standardize_education`: `^[Bb]` to `Bachelor`. -/
def educationCells (cs : List Cell) : List Cell :=
  maskAssign (startsAny [66, 98]) (Cell.str (pystr ("Bachelor"))) cs

/-- Stage 4: standardize the education column. -/
def standardize_education (t : Table) : Option Table := locStage ename educationCells t

/-- Word characters for the regex word boundary `\b`. -/
def isWordChar (c : Nat) : Bool :=
  decide ((48 ≤ c ∧ c ≤ 57) ∨ (65 ≤ c ∧ c ≤ 90) ∨ (97 ≤ c ∧ c ≤ 122) ∨ c = 95)

/-- The code points of the literal word `Sports`. -/
def sportsWord : PyStr := pystr ("Sports")

/-- Whether `pat` is a prefix of `s`, by code points. -/
def startsWithStr : PyStr → PyStr → Bool
  | [], _ => true
  | _ :: _, [] => false
  | p :: ps, c :: cs => p == c && startsWithStr ps cs

/-- The left `\b`: start of string, or a non-word previous character. -/
def boundaryL : Option Nat → Bool
  | none => true
  | some c => !isWordChar c

/-- The right `\b`: end of string, or a non-word next character. -/
def boundaryR : PyStr → Bool
  | [] => true
  | c :: _ => !isWordChar c

/-- Scanner for `re.search(r'\bSports\b', s)`, carrying the previous
character for the left word boundary. -/
def wordSportsAux (prev : Option Nat) : PyStr → Bool
  | [] => false
  | c :: rest =>
      (startsWithStr sportsWord (c :: rest) && boundaryL prev
        && boundaryR ((c :: rest).drop sportsWord.length))
      || wordSportsAux (some c) rest

/-- `series.str.contains(r'\bSports\b', na=False)` on one cell. -/
def hasWordSports : Cell → Bool
  | Cell.str s => wordSportsAux none s
  | _ => false

/-- The literal replacement value `Luxury`. -/
def luxuryCell : Cell := Cell.str (pystr ("Luxury"))

/-- The two masked assignments of `standardize_vehicle_class`: the leading
character class `^[Lu]` first, then the word `Sports` on the updated
column. -/
def vehicleCells (cs : List Cell) : List Cell :=
  maskAssign hasWordSports luxuryCell
    (maskAssign (startsAny [76, 117]) luxuryCell cs)

/-- Stage 5: standardize the vehicle_class column. -/
def standardize_vehicle_class (t : Table) : Option Table := locStage vname vehicleCells t

/-! ### Stage 6: clean_and_convert_numerical -/

/-- Whether a code point is an ASCII digit. -/
def isDigit (c : Nat) : Bool := decide (48 ≤ c ∧ c ≤ 57)

/-- The natural number denoted by a string of digits. -/
def digitsVal (ds : PyStr) : Nat := ds.foldl (fun a c => a * 10 + (c - 48)) 0

/-- `.str.rstrip('%')`: remove every trailing percent sign. -/
def rstripPct (s : PyStr) : PyStr := (s.reverse.dropWhile (fun c => c == 37)).reverse

/-- `.str.rstrip('%')` on one cell: NaN and non-text cells give NaN. -/
def stripCell : Cell → Cell
  | Cell.str s => Cell.str (rstripPct s)
  | _ => Cell.null

/-- The numeric-literal grammar accepted by the `pd.to_numeric` model:
an optional sign, then digits with an optional decimal point.  Returns the
exact value as a `Frac`. -/
def parseUnsigned (s : PyStr) : Option Frac :=
  match s.dropWhile isDigit with
  | [] => if (s.takeWhile isDigit).isEmpty then none else some ⟨digitsVal s, 1⟩
  | c :: rest2 =>
      if c = 46 then
        if (rest2.dropWhile isDigit).isEmpty
            ∧ ¬((s.takeWhile isDigit).isEmpty ∧ rest2.isEmpty) then
          some ⟨digitsVal (s.takeWhile isDigit) * 10 ^ rest2.length + digitsVal rest2,
                10 ^ rest2.length⟩
        else none
      else none

/-- Parse a full numeric literal, with an optional leading sign. -/
def parseFloat : PyStr → Option Frac
  | [] => none
  | c :: rest =>
      if c = 45 then (parseUnsigned rest).map (fun q => ⟨-q.n, q.d⟩)
      else if c = 43 then parseUnsigned rest
      else parseUnsigned (c :: rest)

/-- `pd.to_numeric(series, errors='coerce')` on one cell: text is parsed
(unparseable text gives NaN), numbers pass through, bools become 0 or 1. -/
def toNumericCoerce : Cell → Cell
  | Cell.str s =>
      match parseFloat s with
      | some q => Cell.num q
      | none => Cell.null
  | Cell.num q => Cell.num q
  | Cell.int n => Cell.num ⟨n, 1⟩
  | Cell.bool b => Cell.num ⟨if b then 1 else 0, 1⟩
  | Cell.null => Cell.null

/-- `re.search(r'/(\d+)/', s)`: the first digit run that is flanked by
slashes, scanning left to right. -/
def extractSlash : PyStr → Option PyStr
  | [] => none
  | c :: rest =>
      if c = 47 then
        if (rest.takeWhile isDigit).isEmpty then extractSlash rest
        else
          match rest.dropWhile isDigit with
          | 47 :: _ => some (rest.takeWhile isDigit)
          | _ => extractSlash rest
      else extractSlash rest

/-- `.str.extract(r'/(\d+)/')` on one cell: the captured group as text,
NaN when there is no match or the cell is not text. -/
def extractCell : Cell → Cell
  | Cell.str s =>
      match extractSlash s with
      | some ds => Cell.str ds
      | none => Cell.null
  | _ => Cell.null

/-- `.astype('Int64')` on one cell: floats must hold an integral value
that fits in a signed 64-bit integer (otherwise the safe cast raises a
TypeError), text cannot be cast. -/
def astypeInt64 : Cell → Option Cell
  | Cell.null => some Cell.null
  | Cell.num q =>
      if q.d ≠ 0 ∧ q.n % (q.d : Int) = 0
          ∧ -(2 ^ 63) ≤ q.n / (q.d : Int) ∧ q.n / (q.d : Int) ≤ 2 ^ 63 - 1
      then some (Cell.int (q.n / (q.d : Int))) else none
  | Cell.int n => some (Cell.int n)
  | Cell.bool b => some (Cell.int (if b then 1 else 0))
  | Cell.str _ => none

/-- Stage 6: strip the percent sign from `customer_lifetime_value` and
coerce it to float64, then extract the slash-delimited token from
`number_of_open_complaints` and coerce it to nullable Int64. -/
def clean_and_convert_numerical (t : Table) : Option Table := do
  let c1 ← getCol t clvName
  let s1 ← strAcc c1
  let t1 := setCol t clvName Dtype.object (s1.map stripCell)
  let c2 ← getCol t1 clvName
  let t2 := setCol t1 clvName Dtype.float64 (c2.cells.map toNumericCoerce)
  let c3 ← getCol t2 nocName
  let s3 ← strAcc c3
  let t3 := setCol t2 nocName Dtype.object (s3.map extractCell)
  let c4 ← getCol t3 nocName
  let cs4 ← (c4.cells.map toNumericCoerce).mapM astypeInt64
  return setCol t3 nocName Dtype.int64N cs4

/-! ### Stage 7: handle_missing_values -/

/-- The categorical columns filled with `Unknown`. -/
def categorical_cols : List PyStr := [custName, sname, gname, ename, ptName, vname]

/-- The numerical columns filled with the median. -/
def numerical_cols : List PyStr := [tcaName, mpaName, ciName, clvName]

/-- `series.fillna(v)`: replace NaN cells by `v` (a NaN fill value leaves
the series unchanged). -/
def fillWith (v : Cell) (cs : List Cell) : List Cell :=
  cs.map (fun c => if isNullCell c then v else c)

/-- Fill one categorical column with the literal text `Unknown`. -/
def fillCat (t : Table) (n : PyStr) : Option Table := do
  let col ← getCol t n
  return setCol t n col.dtype (fillWith (Cell.str (pystr ("Unknown"))) col.cells)

/-- The numeric value of a cell, if it has one. -/
def cellNumVal : Cell → Option Frac
  | Cell.num q => some q
  | Cell.int n => some ⟨n, 1⟩
  | Cell.bool b => some ⟨if b then 1 else 0, 1⟩
  | _ => none

/-- Insertion into a sorted list of fractions. -/
def insSorted (q : Frac) : List Frac → List Frac
  | [] => [q]
  | x :: xs => if leF q x then q :: x :: xs else x :: insSorted q xs

/-- Insertion sort of fractions. -/
def sortF : List Frac → List Frac
  | [] => []
  | x :: xs => insSorted x (sortF xs)

/-- The mean of two fractions, used for even-length medians. -/
def halfSum (a b : Frac) : Frac := ⟨a.n * b.d + b.n * a.d, a.d * b.d * 2⟩

/-- The median of a list of fractions: the middle of the sorted list, or
the mean of the two middle elements; `none` for the empty list. -/
def medianOf (l : List Frac) : Option Frac :=
  match (sortF l)[((sortF l).length - 1) / 2]?, (sortF l)[(sortF l).length / 2]? with
  | some a, some b => some (halfSum a b)
  | _, _ => none

/-- `series.median()` as a fill value: raises (TypeError) when the column
holds text, gives NaN for a column with no numeric values. -/
def medCell (cs : List Cell) : Option Cell :=
  if cs.any isStrCell then none
  else some (match medianOf (cs.filterMap cellNumVal) with
    | some q => Cell.num q
    | none => Cell.null)

/-- Fill one numerical column with its median. -/
def fillNum (t : Table) (n : PyStr) : Option Table := do
  let col ← getCol t n
  let m ← medCell col.cells
  return setCol t n col.dtype (fillWith m col.cells)

/-- The `for` loop over the categorical columns. -/
def fillCats : Table → List PyStr → Option Table
  | t, [] => some t
  | t, n :: ns => do
      let t2 ← fillCat t n
      fillCats t2 ns

/-- The `for` loop over the numerical columns. -/
def fillNums : Table → List PyStr → Option Table
  | t, [] => some t
  | t, n :: ns => do
      let t2 ← fillNum t n
      fillNums t2 ns

/-- Stage 7: fill categorical columns with `Unknown`, numerical columns
with their medians, then flag the rows whose complaints count is NaN. -/
def handle_missing_values (t : Table) : Option Table := do
  let t1 ← fillCats t categorical_cols
  let t2 ← fillNums t1 numerical_cols
  let c ← getCol t2 nocName
  return setCol t2 cmName Dtype.boolN (c.cells.map (fun x => Cell.bool (isNullCell x)))

/-! ### The orchestrator -/

/-- The full pipeline, stages 1 through 7 in order. -/
def main_cleaning_pipeline (t : Table) : Option Table := do
  let t1 ← standardize_gender (clean_column_names t)
  let t2 ← standardize_state t1
  let t3 ← standardize_education t2
  let t4 ← standardize_vehicle_class t3
  let t5 ← clean_and_convert_numerical t4
  handle_missing_values t5

/-- The pipeline stopped after stage 6, used to state properties of the
intermediate table the missing-value filler receives. -/
def pipeline_through_6 (t : Table) : Option Table := do
  let t1 ← standardize_gender (clean_column_names t)
  let t2 ← standardize_state t1
  let t3 ← standardize_education t2
  let t4 ← standardize_vehicle_class t3
  clean_and_convert_numerical t4

/-- Text cell shorthand for concrete tables. -/
def strC (s : String) : Cell := Cell.str (pystr (s))

/-- The cells of column `n` of `t`, when the column exists. -/
def colCellsOf (t : Table) (n : PyStr) : Option (List Cell) :=
  (getCol t n).map Col.cells

/-- No cell of the list is null. -/
def noNullCells (cs : List Cell) : Prop := ∀ c ∈ cs, isNullCell c = false

/-- No cell of the list is text. -/
def noStrCells (cs : List Cell) : Prop := ∀ c ∈ cs, isStrCell c = false

/-- A column the numerical fill leaves unchanged: no text, and refilling
with its own median is the identity. -/
def numStable (cs : List Cell) : Prop :=
  noStrCells cs ∧ ∃ m, medCell cs = some m ∧ fillWith m cs = cs

/-- Every cell is text or null: the contract of a raw text column. -/
def textOnly (cs : List Cell) : Prop := ∀ c ∈ cs, c = Cell.null ∨ isStrCell c = true

/-- What stage 6 does to one customer_lifetime_value cell: strip the
trailing percent signs, then coerce to a float. -/
def clvCell (c : Cell) : Cell := toNumericCoerce (stripCell c)

/-- What stage 6 does to one number_of_open_complaints text cell: the
first slash-flanked digit run as an Int64, null when there is none. -/
def nocCellSpec (c : Cell) : Cell :=
  match c with
  | Cell.str s =>
      match extractSlash s with
      | some ds => Cell.int (digitsVal ds)
      | none => Cell.null
  | _ => Cell.null

/-- What stage 5 does to one vehicle_class cell: the `^[Lu]` rule, then
the `Sports` word rule on its output. -/
def vehCellSpec (c : Cell) : Cell :=
  if hasWordSports (if startsAny [76, 117] c then luxuryCell else c) then luxuryCell
  else if startsAny [76, 117] c then luxuryCell else c

/-- What stage 3 does to one state cell. -/
def stateCellSpec (c : Cell) : Cell := replaceCell (upperCell c)

/-- The end-to-end example row of the specification, as a one-row table
with every column the pipeline requires. -/
def exampleTable : Table :=
  ⟨[⟨custName, Dtype.object, [strC ("AB123")]⟩,
    ⟨sname, Dtype.object, [strC ("ca")]⟩,
    ⟨gname, Dtype.object, [strC ("female")]⟩,
    ⟨ename, Dtype.object, [strC ("Bach of Science")]⟩,
    ⟨ptName, Dtype.object, [strC ("Personal Auto")]⟩,
    ⟨vname, Dtype.object, [strC ("luxury car")]⟩,
    ⟨clvName, Dtype.object, [strC ("897.23%")]⟩,
    ⟨nocName, Dtype.object, [strC ("1/5/00")]⟩,
    ⟨tcaName, Dtype.float64, [Cell.num ⟨100, 1⟩]⟩,
    ⟨mpaName, Dtype.float64, [Cell.num ⟨50, 1⟩]⟩,
    ⟨ciName, Dtype.float64, [Cell.num ⟨40000, 1⟩]⟩]⟩

/-- A two-column table whose customer_lifetime_value cell ends in two
percent signs. -/
def doublePctTable : Table :=
  ⟨[⟨clvName, Dtype.object, [strC ("5%%")]⟩,
    ⟨nocName, Dtype.object, [strC ("0/0/0")]⟩]⟩

/-- A two-column text table on which stage 6 succeeds once; its output
columns are numeric, so a second run of stage 6 raises. -/
def coerceTwiceTable : Table :=
  ⟨[⟨clvName, Dtype.object, [strC ("1%")]⟩,
    ⟨nocName, Dtype.object, [strC ("1/2/3")]⟩]⟩

/-- A table with all columns stage 7 requires whose customer_income
column is entirely null. -/
def allNullIncomeTable : Table :=
  ⟨[⟨custName, Dtype.object, [strC ("AB123")]⟩,
    ⟨sname, Dtype.object, [strC ("CALIFORNIA")]⟩,
    ⟨gname, Dtype.object, [strC ("F")]⟩,
    ⟨ename, Dtype.object, [strC ("Bachelor")]⟩,
    ⟨ptName, Dtype.object, [strC ("Personal Auto")]⟩,
    ⟨vname, Dtype.object, [strC ("Luxury")]⟩,
    ⟨clvName, Dtype.float64, [Cell.num ⟨89723, 100⟩]⟩,
    ⟨nocName, Dtype.int64N, [Cell.int 5]⟩,
    ⟨tcaName, Dtype.float64, [Cell.num ⟨100, 1⟩]⟩,
    ⟨mpaName, Dtype.float64, [Cell.num ⟨50, 1⟩]⟩,
    ⟨ciName, Dtype.float64, [Cell.null]⟩]⟩

/-- A one-column gender table, used to instantiate universal theorems. -/
def genderTable : Table := ⟨[⟨gname, Dtype.object, [strC ("female"), Cell.null]⟩]⟩

/-- The gender table after one run of the gender normalizer. -/
def genderTableOnce : Table := ⟨[⟨gname, Dtype.object, [strC ("F"), Cell.null]⟩]⟩

/-- A one-column state table, used to instantiate universal theorems. -/
def stateTable : Table :=
  ⟨[⟨sname, Dtype.object, [strC ("ca"), strC ("AZ"), strC ("Cali"), strC ("Utopia"), Cell.null]⟩]⟩

/-- A one-column vehicle_class table with a value starting with uppercase
U, which the claimed first-character rule would map to Luxury. -/
def vehicleTable : Table := ⟨[⟨vname, Dtype.object, [strC ("Utility"), strC ("Sports Car")]⟩]⟩

/-- The vehicle table after the vehicle-class normalizer. -/
def vehicleTableOnce : Table := ⟨[⟨vname, Dtype.object, [strC ("Utility"), luxuryCell]⟩]⟩

/-- A one-column state table, with map hits, a near-miss and a null. -/
def stateTableOnce : Table :=
  ⟨[⟨sname, Dtype.object,
     [strC ("CALIFORNIA"), strC ("ARIZONA"), strC ("CALIFORNIA"), strC ("UTOPIA"), Cell.null]⟩]⟩

/-- The double-percent table after the numeric coercer. -/
def doublePctAfter : Table :=
  ⟨[⟨clvName, Dtype.float64, [Cell.num ⟨5, 1⟩]⟩,
    ⟨nocName, Dtype.int64N, [Cell.int 0]⟩]⟩

/-- The example table after stages 1 through 6. -/
def exampleAfter6 : Table :=
  ⟨[⟨custName, Dtype.object, [strC ("AB123")]⟩,
    ⟨sname, Dtype.object, [strC ("CALIFORNIA")]⟩,
    ⟨gname, Dtype.object, [strC ("F")]⟩,
    ⟨ename, Dtype.object, [strC ("Bachelor")]⟩,
    ⟨ptName, Dtype.object, [strC ("Personal Auto")]⟩,
    ⟨vname, Dtype.object, [strC ("luxury car")]⟩,
    ⟨clvName, Dtype.float64, [Cell.num ⟨89723, 100⟩]⟩,
    ⟨nocName, Dtype.int64N, [Cell.int 5]⟩,
    ⟨tcaName, Dtype.float64, [Cell.num ⟨100, 1⟩]⟩,
    ⟨mpaName, Dtype.float64, [Cell.num ⟨50, 1⟩]⟩,
    ⟨ciName, Dtype.float64, [Cell.num ⟨40000, 1⟩]⟩]⟩

/-- The example table after the full pipeline. -/
def exampleFinal : Table :=
  ⟨[⟨custName, Dtype.object, [strC ("AB123")]⟩,
    ⟨sname, Dtype.object, [strC ("CALIFORNIA")]⟩,
    ⟨gname, Dtype.object, [strC ("F")]⟩,
    ⟨ename, Dtype.object, [strC ("Bachelor")]⟩,
    ⟨ptName, Dtype.object, [strC ("Personal Auto")]⟩,
    ⟨vname, Dtype.object, [strC ("luxury car")]⟩,
    ⟨clvName, Dtype.float64, [Cell.num ⟨89723, 100⟩]⟩,
    ⟨nocName, Dtype.int64N, [Cell.int 5]⟩,
    ⟨tcaName, Dtype.float64, [Cell.num ⟨100, 1⟩]⟩,
    ⟨mpaName, Dtype.float64, [Cell.num ⟨50, 1⟩]⟩,
    ⟨ciName, Dtype.float64, [Cell.num ⟨40000, 1⟩]⟩,
    ⟨cmName, Dtype.boolN, [Cell.bool false]⟩]⟩

/-- The cells of the named columns of a stage result, for concrete runs. -/
def rowOf (r : Option Table) (ns : List PyStr) : Option (List (Option (List Cell))) :=
  r.map (fun t => ns.map (fun n => colCellsOf t n))

/-- The cells of one column of a stage result. -/
def cellsAfter (r : Option Table) (n : PyStr) : Option (List Cell) :=
  r.bind (fun t => colCellsOf t n)

/-- Whether the slash-extracted complaints token of a cell, when there
is one, denotes a value within the Int64 range, so that the final
`.astype('Int64')` cast cannot overflow. -/
def nocTokenSmall : Cell → Bool
  | Cell.str s =>
      match extractSlash s with
      | some ds => decide (digitsVal ds < 2 ^ 63)
      | none => true
  | _ => true

/-- A text table whose complaints cell holds a well-formed slash pattern
with the token 9223372036854775808 = 2^63, one past the Int64 maximum. -/
def overflowTable : Table :=
  ⟨[⟨clvName, Dtype.object, [strC ("1")]⟩,
    ⟨nocName, Dtype.object, [strC ("/9223372036854775808/")]⟩]⟩


/-! ### Character-level lemmas for the column-name normalizer -/

theorem lowerChar_not_upper (c : Nat) : ¬(65 ≤ lowerChar c ∧ lowerChar c ≤ 90) := by
  unfold lowerChar; split <;> omega

theorem underChar_nospace (c : Nat) : underChar c ≠ 32 := by
  unfold underChar; split <;> omega

theorem underChar_not_upper (c : Nat) (h : ¬(65 ≤ c ∧ c ≤ 90)) :
    ¬(65 ≤ underChar c ∧ underChar c ≤ 90) := by
  unfold underChar; split <;> omega

theorem pyLower_fix (s : PyStr) (h : ∀ c ∈ s, ¬(65 ≤ c ∧ c ≤ 90)) : pyLower s = s := by
  induction s with
  | nil => rfl
  | cons a l ih =>
      have ha : lowerChar a = a := by
        unfold lowerChar; rw [if_neg (h a (by simp))]
      have hl : pyLower l = l := ih (fun c hc => h c (by simp [hc]))
      simp only [pyLower, List.map_cons] at hl ⊢
      rw [ha, hl]

theorem underscoreSpaces_fix (s : PyStr) (h : ∀ c ∈ s, c ≠ 32) : underscoreSpaces s = s := by
  induction s with
  | nil => rfl
  | cons a l ih =>
      have ha : underChar a = a := by
        unfold underChar; rw [if_neg (h a (by simp))]
      have hl : underscoreSpaces l = l := ih (fun c hc => h c (by simp [hc]))
      simp only [underscoreSpaces, List.map_cons] at hl ⊢
      rw [ha, hl]

theorem cleanChars (m : PyStr) :
    ∀ c ∈ underscoreSpaces (pyLower m), ¬(65 ≤ c ∧ c ≤ 90) ∧ c ≠ 32 := by
  intro c hc
  simp only [underscoreSpaces, pyLower, List.map_map, List.mem_map, Function.comp] at hc
  obtain ⟨a, _, rfl⟩ := hc
  exact ⟨underChar_not_upper _ (lowerChar_not_upper a), underChar_nospace _⟩

theorem cleanName_fix_of_clean (X : PyStr) (h : ∀ c ∈ X, ¬(65 ≤ c ∧ c ≤ 90) ∧ c ≠ 32)
    (h1 : X ≠ pystr ("st")) (h2 : X ≠ pystr ("income")) : cleanName X = X := by
  unfold cleanName
  rw [pyLower_fix X (fun c hc => (h c hc).1), underscoreSpaces_fix X (fun c hc => (h c hc).2)]
  unfold renameCol
  rw [if_neg h1, if_neg h2]

theorem cleanName_idem (m : PyStr) : cleanName (cleanName m) = cleanName m := by
  have hc := cleanChars m
  have hshape : cleanName m = renameCol (underscoreSpaces (pyLower m)) := rfl
  unfold renameCol at hshape
  by_cases h1 : underscoreSpaces (pyLower m) = pystr ("st")
  · rw [hshape, if_pos h1]; decide
  · by_cases h2 : underscoreSpaces (pyLower m) = pystr ("income")
    · rw [hshape, if_neg h1, if_pos h2]; decide
    · rw [hshape, if_neg h1, if_neg h2]
      exact cleanName_fix_of_clean _ hc h1 h2

/-! ### Table lemmas -/

theorem clean_column_names_idem (t : Table) :
    clean_column_names (clean_column_names t) = clean_column_names t := by
  unfold clean_column_names
  simp only [List.map_map]
  congr 1
  apply List.map_congr_left
  intro c _
  simp [Function.comp, cleanName_idem]

theorem getCol_name (t : Table) (n : PyStr) (col : Col) (h : getCol t n = some col) :
    col.name = n := by
  have := List.find?_some h
  simpa using this

theorem getCol_mem (t : Table) (n : PyStr) (col : Col) (h : getCol t n = some col) :
    col ∈ t.cols := List.mem_of_find?_eq_some h

theorem find?_replace_self (l : List Col) (n : PyStr) (d : Dtype) (cs : List Cell)
    (h : (l.find? (fun c => c.name == n)).isSome) :
    (l.map (fun c => if c.name == n then (⟨n, d, cs⟩ : Col) else c)).find?
      (fun c => c.name == n) = some ⟨n, d, cs⟩ := by
  induction l with
  | nil => simp at h
  | cons a l ih =>
      by_cases ha : a.name = n
      · have hb : (a.name == n) = true := by simpa using ha
        simp only [List.map_cons, hb, if_true]
        rw [List.find?_cons_of_pos _ (by simp)]
      · have hb : (a.name == n) = false := by simpa using ha
        simp only [List.map_cons, hb, Bool.false_eq_true, if_false]
        rw [List.find?_cons_of_neg _ (by simp [ha])]
        apply ih
        rw [List.find?_cons_of_neg _ (by simp [ha])] at h
        exact h

theorem getCol_setCol_self (t : Table) (n : PyStr) (d : Dtype) (cs : List Cell) :
    getCol (setCol t n d cs) n = some ⟨n, d, cs⟩ := by
  unfold setCol
  by_cases h : hasCol t n
  · rw [if_pos h]
    exact find?_replace_self t.cols n d cs h
  · rw [if_neg h]
    unfold hasCol getCol at h
    unfold getCol
    simp only []
    rw [List.find?_append]
    cases hf : t.cols.find? (fun c => c.name == n) with
    | some col => rw [hf] at h; simp at h
    | none => simp [List.find?_cons]

theorem hasCol_setCol_self (t : Table) (n : PyStr) (d : Dtype) (cs : List Cell) :
    hasCol (setCol t n d cs) n = true := by
  unfold hasCol
  rw [getCol_setCol_self]
  rfl

theorem find?_replace_other (l : List Col) (n m : PyStr) (d : Dtype) (cs : List Cell)
    (hnm : m ≠ n) :
    (l.map (fun c => if c.name == n then (⟨n, d, cs⟩ : Col) else c)).find?
      (fun c => c.name == m) = l.find? (fun c => c.name == m) := by
  induction l with
  | nil => rfl
  | cons a l ih =>
      by_cases ha : a.name = n
      · have hb : (a.name == n) = true := by simpa using ha
        have ham : a.name ≠ m := by rw [ha]; exact fun hh => hnm hh.symm
        simp only [List.map_cons, hb, if_true]
        rw [List.find?_cons_of_neg _ (by simp; exact fun hh => hnm hh.symm),
          List.find?_cons_of_neg _ (by simp [ham])]
        exact ih
      · have hb : (a.name == n) = false := by simpa using ha
        simp only [List.map_cons, hb, Bool.false_eq_true, if_false]
        by_cases hm : a.name = m
        · rw [List.find?_cons_of_pos _ (by simp [hm]),
            List.find?_cons_of_pos _ (by simp [hm])]
        · rw [List.find?_cons_of_neg _ (by simp [hm]),
            List.find?_cons_of_neg _ (by simp [hm])]
          exact ih

theorem getCol_setCol_other (t : Table) (n m : PyStr) (d : Dtype) (cs : List Cell)
    (hnm : m ≠ n) : getCol (setCol t n d cs) m = getCol t m := by
  unfold setCol
  by_cases h : hasCol t n
  · rw [if_pos h]
    exact find?_replace_other t.cols n m d cs hnm
  · rw [if_neg h]
    unfold getCol
    simp only []
    rw [List.find?_append]
    cases hf : t.cols.find? (fun c => c.name == m) with
    | some col => simp
    | none =>
        have hb : (n == m) = false := by
          simp only [beq_eq_false_iff_ne, ne_eq]
          exact fun hh => hnm hh.symm
        simp [List.find?_cons, hb]

theorem not_hasCol_names (t : Table) (n : PyStr) (h : hasCol t n = false) :
    ∀ c ∈ t.cols, c.name ≠ n := by
  intro c hc
  unfold hasCol getCol at h
  cases hf : t.cols.find? (fun c => c.name == n) with
  | some col => rw [hf] at h; simp at h
  | none =>
      rw [List.find?_eq_none] at hf
      simpa using hf c hc

theorem map_replace_id (l : List Col) (n : PyStr) (d : Dtype) (cs : List Cell)
    (h : ∀ c ∈ l, c.name ≠ n) :
    l.map (fun c => if c.name == n then (⟨n, d, cs⟩ : Col) else c) = l := by
  induction l with
  | nil => rfl
  | cons a l ih =>
      have hb : (a.name == n) = false := by simpa using h a (by simp)
      simp only [List.map_cons, hb, Bool.false_eq_true, if_false]
      rw [ih (fun c hc => h c (by simp [hc]))]

theorem nameList_setCol (t : Table) (n : PyStr) (d : Dtype) (cs : List Cell)
    (h : hasCol t n = true) : nameList (setCol t n d cs) = nameList t := by
  unfold setCol nameList
  rw [if_pos h]
  simp only [List.map_map]
  apply List.map_congr_left
  intro c _
  by_cases hc : c.name = n
  · have hb : (c.name == n) = true := by simpa using hc
    simp [Function.comp, hb, hc]
  · have hb : (c.name == n) = false := by simpa using hc
    simp [Function.comp, hb]

theorem hasCol_setCol (t : Table) (n m : PyStr) (d : Dtype) (cs : List Cell)
    (h : hasCol t n = true) : hasCol (setCol t n d cs) m = hasCol t m := by
  by_cases hm : m = n
  · subst hm
    rw [hasCol_setCol_self]
    exact h.symm
  · unfold hasCol
    rw [getCol_setCol_other t n m d cs hm]

theorem setCol_setCol (t : Table) (n : PyStr) (d d2 : Dtype) (cs cs2 : List Cell) :
    setCol (setCol t n d cs) n d2 cs2 = setCol t n d2 cs2 := by
  have h2 : hasCol (setCol t n d cs) n = true := hasCol_setCol_self t n d cs
  by_cases h : hasCol t n
  · have e1 : setCol t n d cs =
        ⟨t.cols.map (fun c => if c.name == n then (⟨n, d, cs⟩ : Col) else c)⟩ := by
      unfold setCol; rw [if_pos h]
    rw [e1] at h2 ⊢
    unfold setCol
    rw [if_pos h2, if_pos h]
    congr 1
    show (t.cols.map _).map _ = t.cols.map _
    simp only [List.map_map]
    apply List.map_congr_left
    intro c _
    by_cases hc : c.name = n
    · have hb : (c.name == n) = true := by simpa using hc
      simp [Function.comp, hb]
    · have hb : (c.name == n) = false := by simpa using hc
      simp [Function.comp, hb]
  · have e1 : setCol t n d cs = ⟨t.cols ++ [⟨n, d, cs⟩]⟩ := by
      unfold setCol; rw [if_neg h]
    rw [e1] at h2 ⊢
    unfold setCol
    rw [if_pos h2, if_neg h]
    congr 1
    show (t.cols ++ [(⟨n, d, cs⟩ : Col)]).map _ = t.cols ++ [(⟨n, d2, cs2⟩ : Col)]
    rw [List.map_append,
      map_replace_id t.cols n d2 cs2 (not_hasCol_names t n (by simpa using h))]
    simp

theorem replace_self_id (l : List Col) (n : PyStr) (col : Col)
    (hnd : (l.map Col.name).Nodup) (h : l.find? (fun c => c.name == n) = some col) :
    l.map (fun c => if c.name == n then (⟨n, col.dtype, col.cells⟩ : Col) else c) = l := by
  induction l with
  | nil => simp at h
  | cons a l ih =>
      simp only [List.map_cons, List.nodup_cons] at hnd
      obtain ⟨hna, hnd2⟩ := hnd
      by_cases ha : a.name = n
      · have hb : (a.name == n) = true := by simpa using ha
        simp only [List.find?_cons, hb] at h
        have hcol : a = col := Option.some.inj h
        subst hcol
        have h1 : (if a.name == n then (⟨n, a.dtype, a.cells⟩ : Col) else a) = a := by
          rw [if_pos hb, ← ha]
        simp only [List.map_cons, h1]
        rw [map_replace_id l n a.dtype a.cells]
        intro c hc hcn
        exact hna (by rw [ha, ← hcn]; exact List.mem_map_of_mem Col.name hc)
      · have hb : (a.name == n) = false := by simpa using ha
        simp only [List.find?_cons, hb] at h
        simp only [List.map_cons, hb, Bool.false_eq_true, if_false]
        rw [ih hnd2 h]

theorem setCol_self_id (t : Table) (n : PyStr) (col : Col) (hnd : namesNodup t)
    (h : getCol t n = some col) : setCol t n col.dtype col.cells = t := by
  have hh : hasCol t n = true := by unfold hasCol; rw [h]; rfl
  unfold setCol
  rw [if_pos hh]
  unfold namesNodup nameList at hnd
  unfold getCol at h
  cases t with
  | mk l => congr 1; exact replace_self_id l n col hnd h

theorem namesNodup_setCol (t : Table) (n : PyStr) (d : Dtype) (cs : List Cell)
    (h : namesNodup t) : namesNodup (setCol t n d cs) := by
  by_cases hh : hasCol t n
  · unfold namesNodup
    rw [nameList_setCol t n d cs hh]
    exact h
  · unfold namesNodup nameList setCol
    rw [if_neg hh]
    simp only [List.map_append, List.map_cons, List.map_nil]
    rw [List.nodup_append]
    refine ⟨h, List.nodup_singleton n, ?_⟩
    intro a ha hb
    simp only [List.mem_singleton] at hb
    simp only [List.mem_map] at ha
    obtain ⟨c, hc, hcn⟩ := ha
    exact not_hasCol_names t n (by simpa using hh) c hc (hcn.trans hb)

/-! ### locStage lemmas -/

theorem locStage_some_iff (n : PyStr) (f : List Cell → List Cell) (t y : Table) :
    locStage n f t = some y ↔
      ∃ col, getCol t n = some col ∧ col.dtype = Dtype.object ∧
        setCol t n Dtype.object (f col.cells) = y := by
  unfold locStage strAcc
  cases h : getCol t n with
  | none => simp [h]
  | some col =>
      by_cases hd : col.dtype = Dtype.object
      · simp [h, hd]
      · simp [h, hd]

theorem locStage_none_of_absent (n : PyStr) (f : List Cell → List Cell) (t : Table)
    (h : hasCol t n = false) : locStage n f t = none := by
  unfold locStage
  unfold hasCol at h
  cases hg : getCol t n with
  | none => simp [hg]
  | some col => rw [hg] at h; simp at h

theorem locStage_idem (n : PyStr) (f : List Cell → List Cell) (t y : Table)
    (hf : ∀ cs, f (f cs) = f cs) (h : locStage n f t = some y) :
    locStage n f y = some y := by
  rw [locStage_some_iff] at h
  obtain ⟨col, hcol, hd, hset⟩ := h
  rw [locStage_some_iff]
  refine ⟨⟨n, Dtype.object, f col.cells⟩, ?_, rfl, ?_⟩
  · rw [← hset]
    exact getCol_setCol_self t n Dtype.object (f col.cells)
  · show setCol y n Dtype.object (f (f col.cells)) = y
    rw [hf, ← hset, setCol_setCol]

theorem locStage_frame (n : PyStr) (f : List Cell → List Cell) (t y : Table)
    (h : locStage n f t = some y) :
    (∀ m, m ≠ n → getCol y m = getCol t m) ∧ nameList y = nameList t ∧
      ∀ col, getCol t n = some col → getCol y n = some ⟨n, Dtype.object, f col.cells⟩ := by
  rw [locStage_some_iff] at h
  obtain ⟨col, hcol, hd, hset⟩ := h
  have hh : hasCol t n = true := by unfold hasCol; rw [hcol]; rfl
  refine ⟨?_, ?_, ?_⟩
  · intro m hm
    rw [← hset]
    exact getCol_setCol_other t n m Dtype.object (f col.cells) hm
  · rw [← hset]
    exact nameList_setCol t n Dtype.object (f col.cells) hh
  · intro col2 hcol2
    rw [hcol] at hcol2
    obtain rfl : col = col2 := Option.some.inj hcol2
    rw [← hset]
    exact getCol_setCol_self t n Dtype.object (f col.cells)

/-! ### Idempotence of the cell transformations of stages 2-5 -/

theorem genderCells_idem (cs : List Cell) : genderCells (genderCells cs) = genderCells cs := by
  unfold genderCells maskAssign
  simp only [List.map_map]
  apply List.map_congr_left
  intro c _
  have e1 : startsAny [77, 109] (Cell.str [70]) = false := by decide
  have e2 : startsAny [70, 102] (Cell.str [70]) = true := by decide
  have e3 : startsAny [77, 109] (Cell.str [77]) = true := by decide
  have e4 : startsAny [70, 102] (Cell.str [77]) = false := by decide
  simp only [Function.comp]
  by_cases h1 : startsAny [70, 102] c = true
  · simp [h1, e1, e2]
  · by_cases h2 : startsAny [77, 109] c = true
    · simp [h1, h2, e3, e4]
    · simp [h1, h2]

theorem educationCells_idem (cs : List Cell) :
    educationCells (educationCells cs) = educationCells cs := by
  unfold educationCells maskAssign
  simp only [List.map_map]
  apply List.map_congr_left
  intro c _
  have e1 : startsAny [66, 98] (Cell.str (pystr ("Bachelor"))) = true := by decide
  simp only [Function.comp]
  by_cases h1 : startsAny [66, 98] c = true
  · simp [h1, e1]
  · simp [h1]

theorem vehicleCells_idem (cs : List Cell) :
    vehicleCells (vehicleCells cs) = vehicleCells cs := by
  unfold vehicleCells maskAssign
  simp only [List.map_map]
  apply List.map_congr_left
  intro c _
  have e1 : startsAny [76, 117] luxuryCell = true := by decide
  have e2 : hasWordSports luxuryCell = false := by decide
  simp only [Function.comp]
  by_cases h1 : startsAny [76, 117] c = true
  · simp [h1, e1, e2]
  · by_cases h2 : hasWordSports c = true
    · simp [h1, h2, e1, e2]
    · simp [h1, h2]

theorem upperChar_idem (c : Nat) : upperChar (upperChar c) = upperChar c := by
  simp only [upperChar]
  split_ifs <;> omega

theorem pyUpper_idem (s : PyStr) : pyUpper (pyUpper s) = pyUpper s := by
  unfold pyUpper
  rw [List.map_map]
  apply List.map_congr_left
  intro c _
  simp [Function.comp, upperChar_idem]

theorem state_map_vals_fixed :
    ∀ p ∈ state_mapping, pyUpper p.2 = p.2 ∧ lookupState p.2 = none := by decide

theorem lookupState_some (v full : PyStr) (h : lookupState v = some full) :
    ∃ p ∈ state_mapping, p.2 = full := by
  unfold lookupState at h
  cases hf : state_mapping.find? (fun p => p.1 == v) with
  | none => rw [hf] at h; simp at h
  | some p =>
      rw [hf] at h
      refine ⟨p, List.mem_of_find?_eq_some hf, ?_⟩
      simpa using h

theorem stateCells_idem (cs : List Cell) : stateCells (stateCells cs) = stateCells cs := by
  unfold stateCells
  simp only [List.map_map]
  apply List.map_congr_left
  intro c _
  simp only [Function.comp]
  cases c with
  | str v =>
      show replaceCell (upperCell (replaceCell (upperCell (Cell.str v)))) =
        replaceCell (upperCell (Cell.str v))
      have hu : upperCell (Cell.str v) = Cell.str (pyUpper v) := rfl
      rw [hu]
      cases hl : lookupState (pyUpper v) with
      | some full =>
          have hr : replaceCell (Cell.str (pyUpper v)) = Cell.str full := by
            simp only [replaceCell, hl]
          rw [hr]
          obtain ⟨p, hp, hfull⟩ := lookupState_some (pyUpper v) full hl
          obtain ⟨hfix, hnone⟩ := state_map_vals_fixed p hp
          rw [hfull] at hfix hnone
          have hu2 : upperCell (Cell.str full) = Cell.str full := by
            show Cell.str (pyUpper full) = Cell.str full
            rw [hfix]
          rw [hu2]
          simp only [replaceCell, hnone]
      | none =>
          have hr : replaceCell (Cell.str (pyUpper v)) = Cell.str (pyUpper v) := by
            simp only [replaceCell, hl]
          rw [hr]
          have hu2 : upperCell (Cell.str (pyUpper v)) = Cell.str (pyUpper v) := by
            show Cell.str (pyUpper (pyUpper v)) = Cell.str (pyUpper v)
            rw [pyUpper_idem]
          rw [hu2, hr]
  | null => rfl
  | num q => rfl
  | int m => rfl
  | bool b => rfl

/-! ### Missing-value filler lemmas -/

theorem map_self_of_fix (f : Cell → Cell) (l : List Cell) (h : ∀ a ∈ l, f a = a) :
    l.map f = l := by
  induction l with
  | nil => rfl
  | cons a t ih =>
      simp only [List.map_cons]
      rw [h a (by simp), ih (fun b hb => h b (by simp [hb]))]

theorem fillWith_id_of_noNull (v : Cell) (cs : List Cell) (h : noNullCells cs) :
    fillWith v cs = cs := by
  unfold fillWith
  apply map_self_of_fix
  intro c hc
  rw [h c hc]
  simp

theorem fillWith_null_id (cs : List Cell) : fillWith Cell.null cs = cs := by
  unfold fillWith
  apply map_self_of_fix
  intro c hc
  by_cases h : isNullCell c = true
  · cases c <;> simp_all [isNullCell]
  · simp [h]

theorem fillWith_noNull (v : Cell) (cs : List Cell) (hv : isNullCell v = false) :
    noNullCells (fillWith v cs) := by
  intro c hc
  unfold fillWith at hc
  simp only [List.mem_map] at hc
  obtain ⟨a, _, rfl⟩ := hc
  by_cases h : isNullCell a = true
  · simp [h, hv]
  · simp [h]

theorem fillWith_noStr (v : Cell) (cs : List Cell) (hv : isStrCell v = false)
    (h : noStrCells cs) : noStrCells (fillWith v cs) := by
  intro c hc
  unfold fillWith at hc
  simp only [List.mem_map] at hc
  obtain ⟨a, ha, rfl⟩ := hc
  by_cases hn : isNullCell a = true
  · simp [hn, hv]
  · simp [hn]
    exact h a ha

theorem any_isStr_false_iff (cs : List Cell) :
    cs.any isStrCell = false ↔ noStrCells cs := by
  unfold noStrCells
  simp [List.any_eq_false]

theorem medCell_some_of_noStr (cs : List Cell) (h : noStrCells cs) :
    medCell cs = some (match medianOf (cs.filterMap cellNumVal) with
      | some q => Cell.num q
      | none => Cell.null) := by
  unfold medCell
  rw [if_neg]
  rw [Bool.not_eq_true, any_isStr_false_iff]
  exact h

theorem filled_num_stable (cs : List Cell) (m : Cell) (hstr : noStrCells cs)
    (hm : medCell cs = some m) : numStable (fillWith m cs) := by
  rw [medCell_some_of_noStr cs hstr] at hm
  cases hmed : medianOf (cs.filterMap cellNumVal) with
  | some q =>
      rw [hmed] at hm
      obtain rfl : Cell.num q = m := by simpa using hm
      have hnn : noNullCells (fillWith (Cell.num q) cs) := fillWith_noNull _ _ rfl
      have hns : noStrCells (fillWith (Cell.num q) cs) := fillWith_noStr _ _ rfl hstr
      refine ⟨hns, ?_⟩
      refine ⟨_, medCell_some_of_noStr _ hns, ?_⟩
      exact fillWith_id_of_noNull _ _ hnn
  | none =>
      rw [hmed] at hm
      obtain rfl : Cell.null = m := by simpa using hm
      rw [fillWith_null_id]
      refine ⟨hstr, Cell.null, ?_, fillWith_null_id cs⟩
      rw [medCell_some_of_noStr cs hstr, hmed]

theorem fillCat_some_iff (t : Table) (n : PyStr) (t2 : Table) :
    fillCat t n = some t2 ↔ ∃ col, getCol t n = some col ∧
      setCol t n col.dtype (fillWith (Cell.str (pystr ("Unknown"))) col.cells) = t2 := by
  unfold fillCat
  cases h : getCol t n with
  | none => simp [h]
  | some col => simp [h]

theorem fillNum_some_iff (t : Table) (n : PyStr) (t2 : Table) :
    fillNum t n = some t2 ↔ ∃ col m, getCol t n = some col ∧ medCell col.cells = some m ∧
      setCol t n col.dtype (fillWith m col.cells) = t2 := by
  unfold fillNum
  cases h : getCol t n with
  | none => simp [h]
  | some col =>
      cases hm : medCell col.cells with
      | none => simp [h, hm]
      | some m => simp [h, hm]

theorem fillCat_fix (t : Table) (n : PyStr) (col : Col) (hnd : namesNodup t)
    (h : getCol t n = some col) (hs : noNullCells col.cells) : fillCat t n = some t := by
  rw [fillCat_some_iff]
  refine ⟨col, h, ?_⟩
  rw [fillWith_id_of_noNull _ _ hs]
  exact setCol_self_id t n col hnd h

theorem fillNum_fix (t : Table) (n : PyStr) (col : Col) (hnd : namesNodup t)
    (h : getCol t n = some col) (hs : numStable col.cells) : fillNum t n = some t := by
  obtain ⟨hstr, m, hm, hfill⟩ := hs
  rw [fillNum_some_iff]
  refine ⟨col, m, h, hm, ?_⟩
  rw [hfill]
  exact setCol_self_id t n col hnd h

theorem fillCat_result (t : Table) (n : PyStr) (t2 : Table) (h : fillCat t n = some t2) :
    ∃ col, getCol t n = some col ∧
      getCol t2 n = some ⟨n, col.dtype, fillWith (Cell.str (pystr ("Unknown"))) col.cells⟩ ∧
      (∀ m, m ≠ n → getCol t2 m = getCol t m) ∧ nameList t2 = nameList t ∧
      (namesNodup t → namesNodup t2) := by
  rw [fillCat_some_iff] at h
  obtain ⟨col, hcol, hset⟩ := h
  have hh : hasCol t n = true := by unfold hasCol; rw [hcol]; rfl
  refine ⟨col, hcol, ?_, ?_, ?_, ?_⟩
  · rw [← hset]; exact getCol_setCol_self t n _ _
  · intro m hm; rw [← hset]; exact getCol_setCol_other t n m _ _ hm
  · rw [← hset]; exact nameList_setCol t n _ _ hh
  · intro hnd; rw [← hset]; exact namesNodup_setCol t n _ _ hnd

theorem fillNum_result (t : Table) (n : PyStr) (t2 : Table) (h : fillNum t n = some t2) :
    ∃ col m, getCol t n = some col ∧ medCell col.cells = some m ∧
      getCol t2 n = some ⟨n, col.dtype, fillWith m col.cells⟩ ∧
      (∀ m2, m2 ≠ n → getCol t2 m2 = getCol t m2) ∧ nameList t2 = nameList t ∧
      (namesNodup t → namesNodup t2) := by
  rw [fillNum_some_iff] at h
  obtain ⟨col, m, hcol, hm, hset⟩ := h
  have hh : hasCol t n = true := by unfold hasCol; rw [hcol]; rfl
  refine ⟨col, m, hcol, hm, ?_, ?_, ?_, ?_⟩
  · rw [← hset]; exact getCol_setCol_self t n _ _
  · intro m2 hm2; rw [← hset]; exact getCol_setCol_other t n m2 _ _ hm2
  · rw [← hset]; exact nameList_setCol t n _ _ hh
  · intro hnd; rw [← hset]; exact namesNodup_setCol t n _ _ hnd

theorem fillCats_props (l : List PyStr) (t t' : Table) (h : fillCats t l = some t')
    (hnd : namesNodup t) :
    namesNodup t' ∧ nameList t' = nameList t ∧
      (∀ m, m ∉ l → getCol t' m = getCol t m) ∧
      (∀ n ∈ l, ∃ col, getCol t' n = some col ∧ noNullCells col.cells) := by
  induction l generalizing t with
  | nil =>
      obtain rfl : t = t' := by simpa [fillCats] using h
      exact ⟨hnd, rfl, fun m _ => rfl, fun n hn => absurd hn (List.not_mem_nil n)⟩
  | cons n ns ih =>
      unfold fillCats at h
      cases h2 : fillCat t n with
      | none => rw [h2] at h; simp at h
      | some t2 =>
          rw [h2] at h
          obtain ⟨col, hcol, hget2, hframe2, hnames2, hnd2f⟩ := fillCat_result t n t2 h2
          have hnd2 : namesNodup t2 := hnd2f hnd
          obtain ⟨hnd', hnames', hframe', hfilled'⟩ := ih t2 h hnd2
          refine ⟨hnd', hnames'.trans hnames2, ?_, ?_⟩
          · intro m hm
            have hm1 : m ≠ n := fun he => hm (he ▸ List.mem_cons_self n ns)
            have hm2 : m ∉ ns := fun he => hm (List.mem_cons_of_mem n he)
            rw [hframe' m hm2, hframe2 m hm1]
          · intro n2 hn2
            rcases List.mem_cons.mp hn2 with he | hmem
            · subst he
              by_cases hin : n2 ∈ ns
              · exact hfilled' n2 hin
              · refine ⟨⟨n2, col.dtype, fillWith (Cell.str (pystr ("Unknown"))) col.cells⟩, ?_, ?_⟩
                · rw [hframe' n2 hin]; exact hget2
                · exact fillWith_noNull _ _ rfl
            · exact hfilled' n2 hmem

theorem fillNums_props (l : List PyStr) (t t' : Table) (h : fillNums t l = some t')
    (hnd : namesNodup t) :
    namesNodup t' ∧ nameList t' = nameList t ∧
      (∀ m, m ∉ l → getCol t' m = getCol t m) ∧
      (∀ n ∈ l, ∃ col, getCol t' n = some col ∧ numStable col.cells) := by
  induction l generalizing t with
  | nil =>
      obtain rfl : t = t' := by simpa [fillNums] using h
      exact ⟨hnd, rfl, fun m _ => rfl, fun n hn => absurd hn (List.not_mem_nil n)⟩
  | cons n ns ih =>
      unfold fillNums at h
      cases h2 : fillNum t n with
      | none => rw [h2] at h; simp at h
      | some t2 =>
          rw [h2] at h
          obtain ⟨col, m, hcol, hm, hget2, hframe2, hnames2, hnd2f⟩ := fillNum_result t n t2 h2
          have hnd2 : namesNodup t2 := hnd2f hnd
          obtain ⟨hnd', hnames', hframe', hfilled'⟩ := ih t2 h hnd2
          refine ⟨hnd', hnames'.trans hnames2, ?_, ?_⟩
          · intro m2 hm2
            have hm1 : m2 ≠ n := fun he => hm2 (he ▸ List.mem_cons_self n ns)
            have hm3 : m2 ∉ ns := fun he => hm2 (List.mem_cons_of_mem n he)
            rw [hframe' m2 hm3, hframe2 m2 hm1]
          · intro n2 hn2
            rcases List.mem_cons.mp hn2 with he | hmem
            · subst he
              by_cases hin : n2 ∈ ns
              · exact hfilled' n2 hin
              · refine ⟨⟨n2, col.dtype, fillWith m col.cells⟩, ?_, ?_⟩
                · rw [hframe' n2 hin]; exact hget2
                · have hstr : noStrCells col.cells := by
                    by_cases ha : col.cells.any isStrCell = true
                    · unfold medCell at hm
                      rw [if_pos ha] at hm
                      simp at hm
                    · exact (any_isStr_false_iff col.cells).mp (by simpa using ha)
                  exact filled_num_stable col.cells m hstr hm
            · exact hfilled' n2 hmem

theorem fillCats_fix (l : List PyStr) (t : Table) (hnd : namesNodup t)
    (h : ∀ n ∈ l, ∃ col, getCol t n = some col ∧ noNullCells col.cells) :
    fillCats t l = some t := by
  induction l with
  | nil => rfl
  | cons n ns ih =>
      obtain ⟨col, hcol, hnn⟩ := h n (by simp)
      unfold fillCats
      rw [fillCat_fix t n col hnd hcol hnn]
      exact ih (fun n2 hn2 => h n2 (by simp [hn2]))

theorem fillNums_fix (l : List PyStr) (t : Table) (hnd : namesNodup t)
    (h : ∀ n ∈ l, ∃ col, getCol t n = some col ∧ numStable col.cells) :
    fillNums t l = some t := by
  induction l with
  | nil => rfl
  | cons n ns ih =>
      obtain ⟨col, hcol, hnn⟩ := h n (by simp)
      unfold fillNums
      rw [fillNum_fix t n col hnd hcol hnn]
      exact ih (fun n2 hn2 => h n2 (by simp [hn2]))

theorem handle_some_iff (t y : Table) :
    handle_missing_values t = some y ↔ ∃ t1 t2 c, fillCats t categorical_cols = some t1 ∧
      fillNums t1 numerical_cols = some t2 ∧ getCol t2 nocName = some c ∧
      setCol t2 cmName Dtype.boolN (c.cells.map (fun x => Cell.bool (isNullCell x))) = y := by
  unfold handle_missing_values
  cases h1 : fillCats t categorical_cols with
  | none => simp [h1]
  | some t1 =>
      cases h2 : fillNums t1 numerical_cols with
      | none => simp [h2]
      | some t2 =>
          cases h3 : getCol t2 nocName with
          | none => simp [h2, h3]
          | some c => simp [h2, h3]

theorem cat_not_num : ∀ n ∈ categorical_cols, n ∉ numerical_cols := by decide

theorem cat_ne_cm : ∀ n ∈ categorical_cols, n ≠ cmName := by decide

theorem num_ne_cm : ∀ n ∈ numerical_cols, n ≠ cmName := by decide

theorem noc_ne_cm : nocName ≠ cmName := by decide

theorem noc_not_cat : nocName ∉ categorical_cols := by decide

theorem noc_not_num : nocName ∉ numerical_cols := by decide

theorem handle_missing_idem (t y : Table) (hnd : namesNodup t)
    (h : handle_missing_values t = some y) : handle_missing_values y = some y := by
  rw [handle_some_iff] at h
  obtain ⟨t1, t2, c, h1, h2, h3, hset⟩ := h
  obtain ⟨hnd1, hnames1, hframe1, hfilled1⟩ := fillCats_props _ t t1 h1 hnd
  obtain ⟨hnd2, hnames2, hframe2, hfilled2⟩ := fillNums_props _ t1 t2 h2 hnd1
  have hndy : namesNodup y := by
    rw [← hset]
    exact namesNodup_setCol t2 cmName _ _ hnd2
  have hycat : ∀ n ∈ categorical_cols, getCol y n = getCol t2 n := by
    intro n hn
    rw [← hset]
    exact getCol_setCol_other t2 cmName n _ _ (cat_ne_cm n hn)
  have hynum : ∀ n ∈ numerical_cols, getCol y n = getCol t2 n := by
    intro n hn
    rw [← hset]
    exact getCol_setCol_other t2 cmName n _ _ (num_ne_cm n hn)
  have fix1 : fillCats y categorical_cols = some y := by
    apply fillCats_fix _ y hndy
    intro n hn
    obtain ⟨col, hcol, hnn⟩ := hfilled1 n hn
    refine ⟨col, ?_, hnn⟩
    rw [hycat n hn, hframe2 n (cat_not_num n hn)]
    exact hcol
  have fix2 : fillNums y numerical_cols = some y := by
    apply fillNums_fix _ y hndy
    intro n hn
    obtain ⟨col, hcol, hnn⟩ := hfilled2 n hn
    refine ⟨col, ?_, hnn⟩
    rw [hynum n hn]
    exact hcol
  rw [handle_some_iff]
  refine ⟨y, y, c, fix1, fix2, ?_, ?_⟩
  · rw [← hset, getCol_setCol_other t2 cmName nocName _ _ noc_ne_cm]
    exact h3
  · rw [← hset, setCol_setCol]

/-! ### Stage 6 lemmas -/

theorem clv_ne_noc : clvName ≠ nocName := by decide

theorem noc_ne_clv : nocName ≠ clvName := by decide

theorem getCol_none_of_not_hasCol (t : Table) (n : PyStr) (h : hasCol t n = false) :
    getCol t n = none := by
  unfold hasCol at h
  cases hg : getCol t n with
  | none => rfl
  | some col => rw [hg] at h; simp at h

theorem strAcc_object (c : Col) (h : c.dtype = Dtype.object) : strAcc c = some c.cells := by
  unfold strAcc
  rw [if_pos h]

theorem ccn_result (t : Table) (c1 c3 : Col)
    (h1 : getCol t clvName = some c1) (hd1 : c1.dtype = Dtype.object)
    (h3 : getCol t nocName = some c3) (hd3 : c3.dtype = Dtype.object)
    (cs4 : List Cell)
    (h4 : ((c3.cells.map extractCell).map toNumericCoerce).mapM astypeInt64 = some cs4) :
    ∃ y, clean_and_convert_numerical t = some y ∧
      getCol y clvName =
        some ⟨clvName, Dtype.float64, (c1.cells.map stripCell).map toNumericCoerce⟩ ∧
      getCol y nocName = some ⟨nocName, Dtype.int64N, cs4⟩ ∧
      (∀ m, m ≠ clvName → m ≠ nocName → getCol y m = getCol t m) ∧
      nameList y = nameList t := by
  have hh1 : hasCol t clvName = true := by unfold hasCol; rw [h1]; rfl
  have hh3 : hasCol t nocName = true := by unfold hasCol; rw [h3]; rfl
  unfold clean_and_convert_numerical
  rw [h1]
  simp only [Option.bind_eq_bind, Option.some_bind]
  rw [strAcc_object c1 hd1]
  simp only [Option.bind_eq_bind, Option.some_bind]
  rw [getCol_setCol_self]
  simp only [Option.bind_eq_bind, Option.some_bind]
  rw [getCol_setCol_other _ _ _ _ _ noc_ne_clv, getCol_setCol_other _ _ _ _ _ noc_ne_clv, h3]
  simp only [Option.bind_eq_bind, Option.some_bind]
  rw [strAcc_object c3 hd3]
  simp only [Option.bind_eq_bind, Option.some_bind]
  rw [getCol_setCol_self]
  simp only [Option.bind_eq_bind, Option.some_bind]
  rw [h4]
  simp only [Option.bind_eq_bind, Option.some_bind]
  refine ⟨_, rfl, ?_, ?_, ?_, ?_⟩
  · rw [getCol_setCol_other _ _ _ _ _ clv_ne_noc, getCol_setCol_other _ _ _ _ _ clv_ne_noc,
      getCol_setCol_self]
  · rw [setCol_setCol, getCol_setCol_self]
  · intro m hmc hmn
    rw [getCol_setCol_other _ _ _ _ _ hmn, getCol_setCol_other _ _ _ _ _ hmn,
      getCol_setCol_other _ _ _ _ _ hmc, getCol_setCol_other _ _ _ _ _ hmc]
  · have hA : hasCol (setCol t clvName Dtype.object (c1.cells.map stripCell)) clvName = true :=
      hasCol_setCol_self _ _ _ _
    have hB : hasCol (setCol (setCol t clvName Dtype.object (c1.cells.map stripCell)) clvName
        Dtype.float64 ((c1.cells.map stripCell).map toNumericCoerce)) nocName = true := by
      rw [hasCol_setCol _ _ _ _ _ hA, hasCol_setCol _ _ _ _ _ hh1]
      exact hh3
    have hC : hasCol (setCol (setCol (setCol t clvName Dtype.object (c1.cells.map stripCell))
        clvName Dtype.float64 ((c1.cells.map stripCell).map toNumericCoerce)) nocName
        Dtype.object (c3.cells.map extractCell)) nocName = true := hasCol_setCol_self _ _ _ _
    rw [nameList_setCol _ _ _ _ hC, nameList_setCol _ _ _ _ hB,
      nameList_setCol _ _ _ _ hA, nameList_setCol _ _ _ _ hh1]

theorem ccn_none_of_clv_absent (t : Table) (h : hasCol t clvName = false) :
    clean_and_convert_numerical t = none := by
  unfold clean_and_convert_numerical
  rw [getCol_none_of_not_hasCol t clvName h]
  rfl

theorem ccn_none_of_noc_absent (t : Table) (h : hasCol t nocName = false) :
    clean_and_convert_numerical t = none := by
  unfold clean_and_convert_numerical
  cases h1 : getCol t clvName with
  | none => rfl
  | some c1 =>
      simp only [Option.bind_eq_bind, Option.some_bind]
      by_cases hd1 : c1.dtype = Dtype.object
      · rw [strAcc_object c1 hd1]
        simp only [Option.bind_eq_bind, Option.some_bind]
        rw [getCol_setCol_self]
        simp only [Option.bind_eq_bind, Option.some_bind]
        rw [getCol_setCol_other _ _ _ _ _ noc_ne_clv, getCol_setCol_other _ _ _ _ _ noc_ne_clv,
          getCol_none_of_not_hasCol t nocName h]
        rfl
      · have e1 : strAcc c1 = none := by unfold strAcc; rw [if_neg hd1]
        rw [e1]
        rfl

/-! ### Digit-string lemmas for the complaints extraction -/

theorem takeWhile_all_digits (l : PyStr) (h : ∀ c ∈ l, isDigit c = true) :
    l.takeWhile isDigit = l := by
  induction l with
  | nil => rfl
  | cons a rest ih =>
      rw [List.takeWhile_cons, if_pos (h a (by simp))]
      rw [ih (fun c hc => h c (by simp [hc]))]

theorem dropWhile_all_digits (l : PyStr) (h : ∀ c ∈ l, isDigit c = true) :
    l.dropWhile isDigit = [] := by
  induction l with
  | nil => rfl
  | cons a rest ih =>
      rw [List.dropWhile_cons_of_pos (h a (by simp))]
      exact ih (fun c hc => h c (by simp [hc]))

theorem extractSlash_digits (s ds : PyStr) (h : extractSlash s = some ds) :
    ds ≠ [] ∧ ∀ c ∈ ds, isDigit c = true := by
  induction s with
  | nil => simp [extractSlash] at h
  | cons c rest ih =>
      unfold extractSlash at h
      by_cases hc : c = 47
      · rw [if_pos hc] at h
        by_cases he : (rest.takeWhile isDigit).isEmpty = true
        · rw [if_pos he] at h
          exact ih h
        · rw [if_neg he] at h
          split at h
          · obtain rfl : rest.takeWhile isDigit = ds := Option.some.inj h
            constructor
            · intro hnil
              rw [hnil] at he
              simp at he
            · intro c2 hc2
              exact List.mem_takeWhile_imp hc2
          · exact ih h
      · rw [if_neg hc] at h
        exact ih h

theorem parseFloat_digits (ds : PyStr) (hne : ds ≠ []) (h : ∀ c ∈ ds, isDigit c = true) :
    parseFloat ds = some ⟨(digitsVal ds : Int), 1⟩ := by
  cases ds with
  | nil => simp at hne
  | cons c rest =>
      have hc : isDigit c = true := h c (by simp)
      have hcd : 48 ≤ c ∧ c ≤ 57 := by simpa [isDigit] using hc
      simp only [parseFloat]
      rw [if_neg (by omega), if_neg (by omega)]
      simp only [parseUnsigned, dropWhile_all_digits _ h, takeWhile_all_digits _ h]
      simp

theorem astypeInt64_natFrac (v : Nat) (hv : v < 2 ^ 63) :
    astypeInt64 (Cell.num ⟨(v : Int), 1⟩) = some (Cell.int (v : Int)) := by
  have e2 : ((v : Int) / ((1 : Nat) : Int)) = (v : Int) := by simp
  simp only [astypeInt64]
  rw [if_pos]
  · rw [e2]
  · refine ⟨one_ne_zero, by simp, ?_, ?_⟩
    · rw [e2]
      omega
    · rw [e2]
      omega

theorem mapM_astype_textOnly (cs : List Cell) (h : textOnly cs)
    (hr : ∀ c ∈ cs, nocTokenSmall c = true) :
    ((cs.map extractCell).map toNumericCoerce).mapM astypeInt64 = some (cs.map nocCellSpec) := by
  induction cs with
  | nil => rfl
  | cons c rest ih =>
      have hc := h c (by simp)
      have hrc := hr c (by simp)
      have hrest : textOnly rest := fun c2 hc2 => h c2 (by simp [hc2])
      have hrrest : ∀ c2 ∈ rest, nocTokenSmall c2 = true := fun c2 hc2 => hr c2 (by simp [hc2])
      simp only [List.map_cons, List.mapM_cons]
      rcases hc with rfl | hstr
      · rw [ih hrest hrrest]
        rfl
      · obtain ⟨s, rfl⟩ : ∃ s, c = Cell.str s := by
          cases c <;> simp [isStrCell] at hstr
          case str s => exact ⟨s, rfl⟩
        cases hex : extractSlash s with
        | none =>
            have hcell : toNumericCoerce (extractCell (Cell.str s)) = Cell.null := by
              simp [extractCell, hex, toNumericCoerce]
            rw [hcell]
            have hspec : nocCellSpec (Cell.str s) = Cell.null := by
              simp [nocCellSpec, hex]
            rw [hspec, ih hrest hrrest]
            rfl
        | some ds =>
            obtain ⟨hne, hdig⟩ := extractSlash_digits s ds hex
            have hcell : toNumericCoerce (extractCell (Cell.str s)) =
                Cell.num ⟨(digitsVal ds : Int), 1⟩ := by
              simp [extractCell, hex, toNumericCoerce, parseFloat_digits ds hne hdig]
            rw [hcell]
            have hbound : digitsVal ds < 2 ^ 63 := by
              simp only [nocTokenSmall, hex] at hrc
              exact of_decide_eq_true hrc
            have hspec : nocCellSpec (Cell.str s) = Cell.int (digitsVal ds) := by
              simp [nocCellSpec, hex]
            rw [hspec, ih hrest hrrest, astypeInt64_natFrac _ hbound]
            rfl

theorem strAcc_some (c : Col) (s : List Cell) (h : strAcc c = some s) :
    c.dtype = Dtype.object ∧ s = c.cells := by
  unfold strAcc at h
  by_cases hd : c.dtype = Dtype.object
  · rw [if_pos hd] at h
    exact ⟨hd, (Option.some.inj h).symm⟩
  · rw [if_neg hd] at h
    simp at h

theorem ccn_success (t y : Table) (h : clean_and_convert_numerical t = some y) :
    ∃ c1 c3 cs4, getCol t clvName = some c1 ∧ c1.dtype = Dtype.object ∧
      getCol t nocName = some c3 ∧ c3.dtype = Dtype.object ∧
      ((c3.cells.map extractCell).map toNumericCoerce).mapM astypeInt64 = some cs4 ∧
      getCol y clvName =
        some ⟨clvName, Dtype.float64, (c1.cells.map stripCell).map toNumericCoerce⟩ ∧
      getCol y nocName = some ⟨nocName, Dtype.int64N, cs4⟩ := by
  unfold clean_and_convert_numerical at h
  cases h1 : getCol t clvName with
  | none => rw [h1] at h; simp at h
  | some c1 =>
      rw [h1] at h
      simp only [Option.bind_eq_bind, Option.some_bind] at h
      cases hs1 : strAcc c1 with
      | none => rw [hs1] at h; simp at h
      | some s1 =>
          rw [hs1] at h
          obtain ⟨hd1, hs1c⟩ := strAcc_some c1 s1 hs1
          subst hs1c
          simp only [Option.bind_eq_bind, Option.some_bind] at h
          rw [getCol_setCol_self] at h
          simp only [Option.bind_eq_bind, Option.some_bind] at h
          rw [getCol_setCol_other _ _ _ _ _ noc_ne_clv,
            getCol_setCol_other _ _ _ _ _ noc_ne_clv] at h
          cases h3 : getCol t nocName with
          | none => rw [h3] at h; simp at h
          | some c3 =>
              rw [h3] at h
              simp only [Option.bind_eq_bind, Option.some_bind] at h
              cases hs3 : strAcc c3 with
              | none => rw [hs3] at h; simp at h
              | some s3 =>
                  rw [hs3] at h
                  obtain ⟨hd3, hs3c⟩ := strAcc_some c3 s3 hs3
                  subst hs3c
                  simp only [Option.bind_eq_bind, Option.some_bind] at h
                  rw [getCol_setCol_self] at h
                  simp only [Option.bind_eq_bind, Option.some_bind] at h
                  cases h4 : ((c3.cells.map extractCell).map toNumericCoerce).mapM astypeInt64 with
                  | none => rw [h4] at h; simp at h
                  | some cs4 =>
                      rw [h4] at h
                      simp only [Option.bind_eq_bind, Option.some_bind] at h
                      obtain rfl : _ = y := Option.some.inj h
                      refine ⟨c1, c3, cs4, rfl, hd1, rfl, hd3, h4, ?_, ?_⟩
                      · rw [getCol_setCol_other _ _ _ _ _ clv_ne_noc,
                          getCol_setCol_other _ _ _ _ _ clv_ne_noc, getCol_setCol_self]
                      · rw [setCol_setCol, getCol_setCol_self]

/-! ### Further support lemmas -/

theorem main_eq_through6_bind (t : Table) :
    main_cleaning_pipeline t = (pipeline_through_6 t).bind handle_missing_values := by
  unfold main_cleaning_pipeline pipeline_through_6
  cases standardize_gender (clean_column_names t) with
  | none => rfl
  | some t1 =>
      simp only [Option.bind_eq_bind, Option.some_bind]
      cases standardize_state t1 with
      | none => rfl
      | some t2 =>
          simp only [Option.bind_eq_bind, Option.some_bind]
          cases standardize_education t2 with
          | none => rfl
          | some t3 =>
              simp only [Option.bind_eq_bind, Option.some_bind]
              cases standardize_vehicle_class t3 with
              | none => rfl
              | some t4 =>
                  simp only [Option.bind_eq_bind, Option.some_bind]

theorem fillCats_frame (l : List PyStr) (t t' : Table) (h : fillCats t l = some t') :
    ∀ m, m ∉ l → getCol t' m = getCol t m := by
  induction l generalizing t with
  | nil =>
      obtain rfl : t = t' := by simpa [fillCats] using h
      exact fun m _ => rfl
  | cons n ns ih =>
      unfold fillCats at h
      cases h2 : fillCat t n with
      | none => rw [h2] at h; simp at h
      | some t2 =>
          rw [h2] at h
          intro m hm
          obtain ⟨col, _, _, hframe2, _, _⟩ := fillCat_result t n t2 h2
          have hm1 : m ≠ n := fun he => hm (he ▸ List.mem_cons_self n ns)
          have hm2 : m ∉ ns := fun he => hm (List.mem_cons_of_mem n he)
          rw [ih t2 h m hm2, hframe2 m hm1]

theorem fillNums_frame (l : List PyStr) (t t' : Table) (h : fillNums t l = some t') :
    ∀ m, m ∉ l → getCol t' m = getCol t m := by
  induction l generalizing t with
  | nil =>
      obtain rfl : t = t' := by simpa [fillNums] using h
      exact fun m _ => rfl
  | cons n ns ih =>
      unfold fillNums at h
      cases h2 : fillNum t n with
      | none => rw [h2] at h; simp at h
      | some t2 =>
          rw [h2] at h
          intro m hm
          obtain ⟨col, mm, _, _, _, hframe2, _, _⟩ := fillNum_result t n t2 h2
          have hm1 : m ≠ n := fun he => hm (he ▸ List.mem_cons_self n ns)
          have hm2 : m ∉ ns := fun he => hm (List.mem_cons_of_mem n he)
          rw [ih t2 h m hm2, hframe2 m hm1]

theorem fillNums_build (l : List PyStr) (hl : l.Nodup) (t t' : Table)
    (h : fillNums t l = some t') :
    ∀ n ∈ l, ∃ col m, getCol t n = some col ∧ medCell col.cells = some m ∧
      getCol t' n = some ⟨n, col.dtype, fillWith m col.cells⟩ := by
  induction l generalizing t with
  | nil => exact fun n hn => absurd hn (List.not_mem_nil n)
  | cons n ns ih =>
      rw [List.nodup_cons] at hl
      unfold fillNums at h
      cases h2 : fillNum t n with
      | none => rw [h2] at h; simp at h
      | some t2 =>
          rw [h2] at h
          intro n2 hn2
          obtain ⟨col, m, hcol, hmed, hget2, hframe2, _, _⟩ := fillNum_result t n t2 h2
          rcases List.mem_cons.mp hn2 with he | hmem
          · subst he
            refine ⟨col, m, hcol, hmed, ?_⟩
            rw [fillNums_frame ns t2 t' h n2 hl.1]
            exact hget2
          · obtain ⟨col2, m2, hcol2, hmed2, hget2'⟩ := ih hl.2 t2 h n2 hmem
            refine ⟨col2, m2, ?_, hmed2, hget2'⟩
            rw [← hframe2 n2 (fun he => hl.1 (he ▸ hmem))]
            exact hcol2

theorem insSorted_length (q : Frac) (l : List Frac) :
    (insSorted q l).length = l.length + 1 := by
  induction l with
  | nil => rfl
  | cons x xs ih =>
      unfold insSorted
      by_cases h : leF q x = true
      · rw [if_pos h]
        simp
      · rw [if_neg h]
        simp [ih]

theorem sortF_length (l : List Frac) : (sortF l).length = l.length := by
  induction l with
  | nil => rfl
  | cons x xs ih =>
      unfold sortF
      rw [insSorted_length, ih, List.length_cons]

theorem medianOf_isSome (l : List Frac) (h : l ≠ []) : ∃ q, medianOf l = some q := by
  unfold medianOf
  have hlen : (sortF l).length = l.length := sortF_length l
  have hpos : 0 < (sortF l).length := by
    rw [hlen]
    exact List.length_pos.mpr h
  have h1 : ((sortF l).length - 1) / 2 < (sortF l).length := by omega
  have h2 : (sortF l).length / 2 < (sortF l).length := by omega
  rw [List.getElem?_eq_getElem h1, List.getElem?_eq_getElem h2]
  exact ⟨_, rfl⟩

theorem medCell_num (cs : List Cell) (m : Cell) (hm : medCell cs = some m)
    (hne : cs.filterMap cellNumVal ≠ []) : ∃ q, m = Cell.num q := by
  unfold medCell at hm
  by_cases ha : cs.any isStrCell = true
  · rw [if_pos ha] at hm
    simp at hm
  · rw [if_neg ha] at hm
    obtain ⟨q, hq⟩ := medianOf_isSome _ hne
    rw [hq] at hm
    exact ⟨q, (Option.some.inj hm).symm⟩

theorem noNull_count (cs : List Cell) (h : noNullCells cs) : cs.count Cell.null = 0 := by
  rw [List.count_eq_zero]
  intro hmem
  have := h Cell.null hmem
  simp [isNullCell] at this

theorem hasCol_iff_mem (t : Table) (m : PyStr) : hasCol t m = true ↔ m ∈ nameList t := by
  unfold hasCol getCol nameList
  rw [List.find?_isSome]
  simp only [List.mem_map, beq_iff_eq]

theorem fillCats_presents (l : List PyStr) (t t' : Table) (h : fillCats t l = some t') :
    (∀ n ∈ l, hasCol t n = true) ∧ ∀ m, hasCol t' m = hasCol t m := by
  induction l generalizing t with
  | nil =>
      obtain rfl : t = t' := by simpa [fillCats] using h
      exact ⟨fun n hn => absurd hn (List.not_mem_nil n), fun m => rfl⟩
  | cons n ns ih =>
      unfold fillCats at h
      cases h2 : fillCat t n with
      | none => rw [h2] at h; simp at h
      | some t2 =>
          rw [h2] at h
          obtain ⟨col, hcol, _, _, hnames2, _⟩ := fillCat_result t n t2 h2
          have hcols : ∀ m, hasCol t2 m = hasCol t m := by
            intro m
            have hiff : (hasCol t2 m = true) ↔ (hasCol t m = true) := by
              rw [hasCol_iff_mem, hasCol_iff_mem, hnames2]
            exact Bool.coe_iff_coe.mp hiff
          obtain ⟨hns, hall⟩ := ih t2 h
          refine ⟨?_, fun m => (hall m).trans (hcols m)⟩
          intro n2 hn2
          rcases List.mem_cons.mp hn2 with he | hmem
          · subst he
            unfold hasCol
            rw [hcol]
            rfl
          · rw [← hcols n2]
            exact hns n2 hmem

theorem fillNums_presents (l : List PyStr) (t t' : Table) (h : fillNums t l = some t') :
    (∀ n ∈ l, hasCol t n = true) ∧ ∀ m, hasCol t' m = hasCol t m := by
  induction l generalizing t with
  | nil =>
      obtain rfl : t = t' := by simpa [fillNums] using h
      exact ⟨fun n hn => absurd hn (List.not_mem_nil n), fun m => rfl⟩
  | cons n ns ih =>
      unfold fillNums at h
      cases h2 : fillNum t n with
      | none => rw [h2] at h; simp at h
      | some t2 =>
          rw [h2] at h
          obtain ⟨col, m, hcol, _, _, _, hnames2, _⟩ := fillNum_result t n t2 h2
          have hcols : ∀ m2, hasCol t2 m2 = hasCol t m2 := by
            intro m2
            have hiff : (hasCol t2 m2 = true) ↔ (hasCol t m2 = true) := by
              rw [hasCol_iff_mem, hasCol_iff_mem, hnames2]
            exact Bool.coe_iff_coe.mp hiff
          obtain ⟨hns, hall⟩ := ih t2 h
          refine ⟨?_, fun m2 => (hall m2).trans (hcols m2)⟩
          intro n2 hn2
          rcases List.mem_cons.mp hn2 with he | hmem
          · subst he
            unfold hasCol
            rw [hcol]
            rfl
          · rw [← hcols n2]
            exact hns n2 hmem

theorem vehicleCells_eq_map (cs : List Cell) : vehicleCells cs = cs.map vehCellSpec := by
  unfold vehicleCells maskAssign vehCellSpec
  rw [List.map_map]
  rfl

theorem stateCells_eq_map (cs : List Cell) : stateCells cs = cs.map stateCellSpec := by
  unfold stateCells stateCellSpec
  rw [List.map_map]
  rfl

theorem genderCells_length (cs : List Cell) : (genderCells cs).length = cs.length := by
  simp [genderCells, maskAssign]

theorem stateCells_length (cs : List Cell) : (stateCells cs).length = cs.length := by
  simp [stateCells]

theorem educationCells_length (cs : List Cell) : (educationCells cs).length = cs.length := by
  simp [educationCells, maskAssign]

theorem vehicleCells_length (cs : List Cell) : (vehicleCells cs).length = cs.length := by
  simp [vehicleCells, maskAssign]

theorem handle_presents (t y : Table) (h : handle_missing_values t = some y) :
    ∀ n ∈ categorical_cols ++ numerical_cols ++ [nocName], hasCol t n = true := by
  rw [handle_some_iff] at h
  obtain ⟨t1, t2, c, h1, h2, h3, _⟩ := h
  obtain ⟨hcats, hall1⟩ := fillCats_presents _ t t1 h1
  obtain ⟨hnums, hall2⟩ := fillNums_presents _ t1 t2 h2
  intro n hn
  rcases List.mem_append.mp hn with hn2 | hnoc
  · rcases List.mem_append.mp hn2 with hcat | hnum
    · exact hcats n hcat
    · rw [← hall1 n]
      exact hnums n hnum
  · obtain rfl : n = nocName := by simpa using hnoc
    rw [← hall1 nocName, ← hall2 nocName]
    unfold hasCol
    rw [h3]
    rfl

theorem num_not_cat : ∀ n ∈ numerical_cols, n ∉ categorical_cols := by decide

theorem rstripPct_append_pct (s : PyStr) : rstripPct (s ++ [37]) = rstripPct s := by
  unfold rstripPct
  rw [List.reverse_append]
  simp only [List.reverse_cons, List.reverse_nil, List.nil_append, List.singleton_append]
  rw [List.dropWhile_cons_of_pos (by decide)]

/-! ### The claims -/

/-- Claim C1, counterexample: on the specified end-to-end input row the
pipeline leaves vehicle_class as the literal text `luxury car` — the
regex `^[Lu]` does not match a leading lowercase `l` — so the claimed
output value `Luxury` is wrong at this concrete input. -/
theorem claim_C1_counterexample :
    rowOf (main_cleaning_pipeline exampleTable) [vname] = some [some [strC ("luxury car")]] ∧
    strC ("luxury car") ≠ strC ("Luxury") := by decide

/-- Claim C1, amended: running the full pipeline on the input row
`{gender:"female", state:"ca", education:"Bach of Science",
vehicle_class:"luxury car", customer_lifetime_value:"897.23%",
number_of_open_complaints:"1/5/00"}` (remaining required columns present
and non-null) produces gender `F`, state `CALIFORNIA`, education
`Bachelor`, vehicle_class unchanged as `luxury car`,
customer_lifetime_value 897.23, number_of_open_complaints 5 and
complaints_missing false. -/
theorem claim_C1_theorem :
    rowOf (main_cleaning_pipeline exampleTable)
        [gname, sname, ename, vname, clvName, nocName, cmName] =
      some [some [strC ("F")], some [strC ("CALIFORNIA")], some [strC ("Bachelor")],
        some [strC ("luxury car")], some [Cell.num ⟨89723, 100⟩], some [Cell.int 5],
        some [Cell.bool false]] ∧
    fracVal ⟨89723, 100⟩ = (89723 : ℚ) / 100 := by
  constructor
  · decide
  · norm_num [fracVal]

/-- Claim C2, counterexample: the value `Utility` begins with uppercase
`U`, which the claim says the first rule replaces with `Luxury`; the
stage leaves it unchanged, because the character class `[Lu]` contains
only `L` and lowercase `u`. -/
theorem claim_C2_counterexample :
    standardize_vehicle_class vehicleTable = some vehicleTableOnce ∧
    colCellsOf vehicleTableOnce vname = some [strC ("Utility"), luxuryCell] ∧
    strC ("Utility") ≠ luxuryCell := by decide

/-- Claim C2, amended: after the vehicle-class stage every cell is the
image of `vehCellSpec`: a text value whose first character is `L` or
lowercase `u` (exactly the class `[Lu]` — not `l`, not uppercase `U`)
becomes `Luxury`, then any value containing the standalone word `Sports`
becomes `Luxury` (applied second, overwriting); all other values are
unchanged. -/
theorem claim_C2_theorem (t y : Table) (col : Col)
    (h : standardize_vehicle_class t = some y) (hcol : getCol t vname = some col) :
    colCellsOf y vname = some (col.cells.map vehCellSpec) ∧
    (∀ c : Cell, startsAny [76, 117] c = true → vehCellSpec c = luxuryCell) ∧
    (∀ s : PyStr, startsAny [76, 117] (Cell.str s) = false →
      hasWordSports (Cell.str s) = false → vehCellSpec (Cell.str s) = Cell.str s) := by
  obtain ⟨_, _, hbullet⟩ := locStage_frame vname vehicleCells t y h
  refine ⟨?_, ?_, ?_⟩
  · unfold colCellsOf
    rw [hbullet col hcol]
    show some (vehicleCells col.cells) = _
    rw [vehicleCells_eq_map]
  · intro c hc
    have hws : hasWordSports luxuryCell = false := by decide
    simp [vehCellSpec, hc, hws]
  · intro s h1 h2
    simp [vehCellSpec, h1, h2]

/-- Claim C2, witness: the amended description evaluated on a concrete
vehicle_class column. -/
theorem claim_C2_witness :
    colCellsOf vehicleTableOnce vname =
      some ([strC ("Utility"), strC ("Sports Car")].map vehCellSpec) :=
  (claim_C2_theorem vehicleTable vehicleTableOnce
    ⟨vname, Dtype.object, [strC ("Utility"), strC ("Sports Car")]⟩ (by decide) (by decide)).1

/-- Claim C3, counterexample: the numeric coercer succeeds on a text
table but fails when applied a second time to its own output, whose
columns are numeric dtype — the `.str` accessor raises — so not every
stage of the pipeline is idempotent. -/
theorem claim_C3_counterexample :
    (clean_and_convert_numerical coerceTwiceTable).isSome = true ∧
    (clean_and_convert_numerical coerceTwiceTable).bind clean_and_convert_numerical = none := by
  decide

/-- Claim C3, amended: every stage except the numeric coercer is
idempotent — stage 1 twice equals stage 1 once on any table, stages 2-5
and stage 7 map their own output to itself (stage 7 on a table with
distinct column names); the numeric coercer is the exception, as its
output violates its own text-typed input precondition. -/
theorem claim_C3_theorem :
    (∀ t, clean_column_names (clean_column_names t) = clean_column_names t) ∧
    (∀ t y, standardize_gender t = some y → standardize_gender y = some y) ∧
    (∀ t y, standardize_state t = some y → standardize_state y = some y) ∧
    (∀ t y, standardize_education t = some y → standardize_education y = some y) ∧
    (∀ t y, standardize_vehicle_class t = some y → standardize_vehicle_class y = some y) ∧
    (∀ t y, namesNodup t → handle_missing_values t = some y →
      handle_missing_values y = some y) := by
  refine ⟨clean_column_names_idem, ?_, ?_, ?_, ?_, ?_⟩
  · exact fun t y h => locStage_idem gname genderCells t y genderCells_idem h
  · exact fun t y h => locStage_idem sname stateCells t y stateCells_idem h
  · exact fun t y h => locStage_idem ename educationCells t y educationCells_idem h
  · exact fun t y h => locStage_idem vname vehicleCells t y vehicleCells_idem h
  · exact fun t y hnd h => handle_missing_idem t y hnd h

/-- Claim C3, witness: idempotence of the gender stage at a concrete
table. -/
theorem claim_C3_witness :
    standardize_gender genderTable = some genderTableOnce ∧
    standardize_gender genderTableOnce = some genderTableOnce :=
  ⟨by decide, claim_C3_theorem.2.1 genderTable genderTableOnce (by decide)⟩

/-- Claim C4, counterexample: the complaints value
`/9223372036854775808/` is well-formed — the slash pattern matches and
the token parses — but its value is 2^63, one past the Int64 maximum, so
the final `.astype('Int64')` cast raises and the stage fails on a table
whose two columns exist as text; the stage does not never-raise. -/
theorem claim_C4_counterexample :
    clean_and_convert_numerical overflowTable = none ∧
    extractSlash (pystr ("/9223372036854775808/")) = some (pystr ("9223372036854775808")) ∧
    getCol overflowTable clvName = some ⟨clvName, Dtype.object, [strC ("1")]⟩ ∧
    getCol overflowTable nocName =
      some ⟨nocName, Dtype.object, [strC ("/9223372036854775808/")]⟩ := by decide

/-- Claim C4, amended: when customer_lifetime_value and
number_of_open_complaints exist as text columns and every slash-extracted
complaints token denotes a value within the Int64 range, the numeric
coercer never raises: it returns a table where every
customer_lifetime_value cell is the parsed float (or null when parsing
fails after the percent strip) and every number_of_open_complaints cell
is the parsed integer from the slash-delimited pattern (or null when
there is no match). Tokens beyond the Int64 range make the `Int64` cast
raise instead. -/
theorem claim_C4_theorem (t : Table) (c1 c3 : Col)
    (h1 : getCol t clvName = some c1) (hd1 : c1.dtype = Dtype.object) (_ht1 : textOnly c1.cells)
    (h3 : getCol t nocName = some c3) (hd3 : c3.dtype = Dtype.object) (ht3 : textOnly c3.cells)
    (hr : ∀ c ∈ c3.cells, nocTokenSmall c = true) :
    (clean_and_convert_numerical t).isSome = true ∧
    cellsAfter (clean_and_convert_numerical t) clvName = some (c1.cells.map clvCell) ∧
    cellsAfter (clean_and_convert_numerical t) nocName = some (c3.cells.map nocCellSpec) := by
  obtain ⟨y, hy, hclv, hnoc, _, _⟩ :=
    ccn_result t c1 c3 h1 hd1 h3 hd3 _ (mapM_astype_textOnly c3.cells ht3 hr)
  rw [hy]
  refine ⟨rfl, ?_, ?_⟩
  · show colCellsOf y clvName = _
    unfold colCellsOf
    rw [hclv]
    show some ((c1.cells.map stripCell).map toNumericCoerce) = _
    rw [List.map_map]
    rfl
  · show colCellsOf y nocName = _
    unfold colCellsOf
    rw [hnoc]
    rfl

/-- Claim C4, witness: the coercer evaluated on a concrete text table. -/
theorem claim_C4_witness :
    (clean_and_convert_numerical doublePctTable).isSome = true ∧
    cellsAfter (clean_and_convert_numerical doublePctTable) clvName =
      some ([strC ("5%%")].map clvCell) ∧
    cellsAfter (clean_and_convert_numerical doublePctTable) nocName =
      some ([strC ("0/0/0")].map nocCellSpec) :=
  claim_C4_theorem doublePctTable ⟨clvName, Dtype.object, [strC ("5%%")]⟩
    ⟨nocName, Dtype.object, [strC ("0/0/0")]⟩ (by decide) (by decide)
    (by unfold textOnly; decide) (by decide) (by decide) (by unfold textOnly; decide)
    (by decide)

/-- Claim C5, counterexample: the value `5%%` ends in two percent signs;
the claim says only one is stripped so the value parses to null, but
`rstrip` removes every trailing percent sign and the cell becomes the
float 5. -/
theorem claim_C5_counterexample :
    rowOf (clean_and_convert_numerical doublePctTable) [clvName] =
      some [some [Cell.num ⟨5, 1⟩]] ∧
    Cell.num ⟨5, 1⟩ ≠ Cell.null := by decide

/-- Claim C5, amended: the numeric coercer strips every trailing percent
sign (not exactly one) from each customer_lifetime_value text cell
before parsing; a value that still fails to parse becomes null, and
appending a percent sign to any text value never changes the result. -/
theorem claim_C5_theorem :
    (∀ t y col, clean_and_convert_numerical t = some y → getCol t clvName = some col →
      colCellsOf y clvName = some (col.cells.map clvCell)) ∧
    (∀ s, clvCell (Cell.str (s ++ [37])) = clvCell (Cell.str s)) := by
  constructor
  · intro t y col h hcol
    obtain ⟨c1, c3, cs4, hg1, _, _, _, _, hclv, _⟩ := ccn_success t y h
    obtain rfl : c1 = col := by rw [hg1] at hcol; exact Option.some.inj hcol
    unfold colCellsOf
    rw [hclv]
    show some ((c1.cells.map stripCell).map toNumericCoerce) = _
    rw [List.map_map]
    rfl
  · intro s
    show toNumericCoerce (stripCell (Cell.str (s ++ [37]))) =
      toNumericCoerce (stripCell (Cell.str s))
    show toNumericCoerce (Cell.str (rstripPct (s ++ [37]))) =
      toNumericCoerce (Cell.str (rstripPct s))
    rw [rstripPct_append_pct]

/-- Claim C5, witness: the amended stripping behavior at a concrete
double-percent cell. -/
theorem claim_C5_witness :
    colCellsOf doublePctAfter clvName = some ([strC ("5%%")].map clvCell) :=
  claim_C5_theorem.1 doublePctTable doublePctAfter ⟨clvName, Dtype.object, [strC ("5%%")]⟩
    (by decide) (by decide)

/-- Claim C6: for the table the missing-value filler receives from the
numeric-coercion stage, the filler leaves number_of_open_complaints
itself unchanged (it appears in no fill list), and the
complaints_missing column it appends is exactly the null mask of that
column, so `complaints_missing[i]` is true iff
`number_of_open_complaints[i]` was null immediately after stage 6. -/
theorem claim_C6_theorem (t0 t6 y : Table) (c : Col)
    (h6 : pipeline_through_6 t0 = some t6) (h7 : handle_missing_values t6 = some y)
    (hc : getCol t6 nocName = some c) :
    main_cleaning_pipeline t0 = some y ∧
    getCol y nocName = some c ∧
    colCellsOf y cmName = some (c.cells.map (fun x => Cell.bool (isNullCell x))) := by
  have h7' := h7
  rw [handle_some_iff] at h7'
  obtain ⟨t1, t2, c2, h1, h2, h3, hset⟩ := h7'
  have hnoc2 : getCol t2 nocName = some c := by
    rw [fillNums_frame _ t1 t2 h2 nocName noc_not_num,
      fillCats_frame _ t6 t1 h1 nocName noc_not_cat]
    exact hc
  obtain rfl : c2 = c := by
    rw [h3] at hnoc2
    exact Option.some.inj hnoc2
  refine ⟨?_, ?_, ?_⟩
  · rw [main_eq_through6_bind, h6]
    exact h7
  · rw [← hset, getCol_setCol_other _ _ _ _ _ noc_ne_cm]
    rw [h3]
  · unfold colCellsOf
    rw [← hset, getCol_setCol_self]
    rfl

/-- Claim C6, witness: the flag column after the full pipeline on the
end-to-end example table. -/
theorem claim_C6_witness :
    main_cleaning_pipeline exampleTable = some exampleFinal ∧
    getCol exampleFinal nocName = some ⟨nocName, Dtype.int64N, [Cell.int 5]⟩ ∧
    colCellsOf exampleFinal cmName =
      some ([Cell.int 5].map (fun x => Cell.bool (isNullCell x))) :=
  claim_C6_theorem exampleTable exampleAfter6 exampleFinal
    ⟨nocName, Dtype.int64N, [Cell.int 5]⟩ (by decide) (by decide) (by decide)

/-- Claim C7, counterexample: a table with all required columns whose
customer_income column is entirely null still has one null entry there
after the missing-value filler — the median of no values is null, and
filling with null is a no-op — so the claimed zero-null guarantee fails. -/
theorem claim_C7_counterexample :
    (handle_missing_values allNullIncomeTable).map
        (fun y => (colCellsOf y ciName).map (fun cs => cs.count Cell.null)) =
      some (some 1) := by decide

/-- Claim C7, amended: for a table with distinct column names containing
the required columns, provided every designated numeric column holds at
least one non-null numeric value, the filler leaves zero null entries in
the designated categorical columns (filled with the text `Unknown`) and
the designated numeric columns (filled with that column's median over
its non-null values). -/
theorem claim_C7_theorem (t y : Table) (hnd : namesNodup t)
    (h : handle_missing_values t = some y)
    (hnum : ∀ n ∈ numerical_cols,
      (getCol t n).map (fun col => col.cells.any (fun c => (cellNumVal c).isSome)) = some true) :
    ∀ n ∈ categorical_cols ++ numerical_cols,
      (colCellsOf y n).map (fun cs => cs.count Cell.null) = some (0 : Nat) := by
  rw [handle_some_iff] at h
  obtain ⟨t1, t2, c, h1, h2, h3, hset⟩ := h
  obtain ⟨hnd1, _, _, hfilledC⟩ := fillCats_props _ t t1 h1 hnd
  have hbuild := fillNums_build numerical_cols (by decide) t1 t2 h2
  intro n hn
  rcases List.mem_append.mp hn with hcat | hnum2
  · obtain ⟨col, hcol, hnn⟩ := hfilledC n hcat
    have hgy : getCol y n = some col := by
      rw [← hset, getCol_setCol_other _ _ _ _ _ (cat_ne_cm n hcat),
        fillNums_frame _ t1 t2 h2 n (cat_not_num n hcat)]
      exact hcol
    unfold colCellsOf
    rw [hgy]
    simp [noNull_count col.cells hnn]
  · obtain ⟨col, m, hcol1, hmed, hget2⟩ := hbuild n hnum2
    rw [fillCats_frame _ t t1 h1 n (num_not_cat n hnum2)] at hcol1
    have hany0 := hnum n hnum2
    rw [hcol1] at hany0
    have hany : col.cells.any (fun c => (cellNumVal c).isSome) = true := by simpa using hany0
    have hne : col.cells.filterMap cellNumVal ≠ [] := by
      rw [List.any_eq_true] at hany
      obtain ⟨cc, hcc, hccs⟩ := hany
      obtain ⟨q, hq⟩ := Option.isSome_iff_exists.mp hccs
      exact List.ne_nil_of_mem (List.mem_filterMap.mpr ⟨cc, hcc, hq⟩)
    obtain ⟨q, rfl⟩ := medCell_num col.cells m hmed hne
    have hnn : noNullCells (fillWith (Cell.num q) col.cells) := fillWith_noNull _ _ rfl
    have hgy : getCol y n = some ⟨n, col.dtype, fillWith (Cell.num q) col.cells⟩ := by
      rw [← hset, getCol_setCol_other _ _ _ _ _ (num_ne_cm n hnum2)]
      exact hget2
    unfold colCellsOf
    rw [hgy]
    simp [noNull_count _ hnn]

/-- Claim C7, witness: the customer_income column after the filler on
the example table has zero nulls. -/
theorem claim_C7_witness :
    (colCellsOf exampleFinal ciName).map (fun cs => cs.count Cell.null) = some (0 : Nat) :=
  claim_C7_theorem exampleAfter6 exampleFinal (by unfold namesNodup; decide) (by decide)
    (by decide) ciName (by decide)

/-- Claim C8: on a text state column the state normalizer maps every
cell through `stateCellSpec`: null stays null, a text value whose
uppercasing is one of the 51 keys of the fixed abbreviation map becomes
the mapped full name, and any other text value becomes its uppercasing. -/
theorem claim_C8_theorem (t y : Table) (col : Col)
    (h : standardize_state t = some y) (hcol : getCol t sname = some col)
    (_htext : textOnly col.cells) :
    colCellsOf y sname = some (col.cells.map stateCellSpec) ∧
    state_mapping.length = 51 ∧
    stateCellSpec Cell.null = Cell.null ∧
    (∀ v full, lookupState (pyUpper v) = some full →
      stateCellSpec (Cell.str v) = Cell.str full) ∧
    (∀ v, lookupState (pyUpper v) = none →
      stateCellSpec (Cell.str v) = Cell.str (pyUpper v)) := by
  obtain ⟨_, _, hbullet⟩ := locStage_frame sname stateCells t y h
  refine ⟨?_, by decide, rfl, ?_, ?_⟩
  · unfold colCellsOf
    rw [hbullet col hcol]
    show some (stateCells col.cells) = _
    rw [stateCells_eq_map]
  · intro v full hl
    show replaceCell (upperCell (Cell.str v)) = Cell.str full
    show replaceCell (Cell.str (pyUpper v)) = Cell.str full
    simp [replaceCell, hl]
  · intro v hl
    show replaceCell (upperCell (Cell.str v)) = Cell.str (pyUpper v)
    show replaceCell (Cell.str (pyUpper v)) = Cell.str (pyUpper v)
    simp [replaceCell, hl]

/-- Claim C8, witness: the state normalizer evaluated on a concrete
column with map hits, the CALI alias, a non-key value and a null. -/
theorem claim_C8_witness :
    colCellsOf stateTableOnce sname =
      some ([strC ("ca"), strC ("AZ"), strC ("Cali"), strC ("Utopia"),
        Cell.null].map stateCellSpec) :=
  (claim_C8_theorem stateTable stateTableOnce
    ⟨sname, Dtype.object,
      [strC ("ca"), strC ("AZ"), strC ("Cali"), strC ("Utopia"), Cell.null]⟩
    (by decide) (by decide) (by unfold textOnly; decide)).1

/-- Claim C9: stage 1 is total (it never fails; it keeps the column
count), while each of stages 2 through 7 returns the failure value
(raises) whenever a column it references is absent from the table:
stages 2-5 their own target column, stage 6 either numeric source
column, stage 7 any of its six categorical columns, four numeric columns,
or the complaints column. -/
theorem claim_C9_theorem :
    (∀ t, (clean_column_names t).cols.length = t.cols.length) ∧
    (∀ t, hasCol t gname = false → standardize_gender t = none) ∧
    (∀ t, hasCol t sname = false → standardize_state t = none) ∧
    (∀ t, hasCol t ename = false → standardize_education t = none) ∧
    (∀ t, hasCol t vname = false → standardize_vehicle_class t = none) ∧
    (∀ t, hasCol t clvName = false → clean_and_convert_numerical t = none) ∧
    (∀ t, hasCol t nocName = false → clean_and_convert_numerical t = none) ∧
    (∀ t n, n ∈ categorical_cols ++ numerical_cols ++ [nocName] → hasCol t n = false →
      handle_missing_values t = none) := by
  refine ⟨?_, ?_, ?_, ?_, ?_, ?_, ?_, ?_⟩
  · intro t
    unfold clean_column_names
    simp
  · exact fun t h => locStage_none_of_absent gname genderCells t h
  · exact fun t h => locStage_none_of_absent sname stateCells t h
  · exact fun t h => locStage_none_of_absent ename educationCells t h
  · exact fun t h => locStage_none_of_absent vname vehicleCells t h
  · exact fun t h => ccn_none_of_clv_absent t h
  · exact fun t h => ccn_none_of_noc_absent t h
  · intro t n hn habs
    cases hh : handle_missing_values t with
    | none => rfl
    | some y =>
        have hpres := handle_presents t y hh n hn
        rw [habs] at hpres
        simp at hpres

/-- Claim C9, witness: on the empty table the gender stage and the
missing-value filler both fail. -/
theorem claim_C9_witness :
    standardize_gender (⟨[]⟩ : Table) = none ∧
    handle_missing_values (⟨[]⟩ : Table) = none :=
  ⟨claim_C9_theorem.2.1 ⟨[]⟩ (by decide),
   claim_C9_theorem.2.2.2.2.2.2.2 ⟨[]⟩ custName (by decide) (by decide)⟩

/-- Claim C10: each single-column normalizer (gender, state, education,
vehicle class) leaves every other column unchanged cell for cell, keeps
the list of column names, and keeps its own column's row count. -/
theorem claim_C10_theorem :
    (∀ t y, standardize_gender t = some y →
      (∀ m, m ≠ gname → getCol y m = getCol t m) ∧ nameList y = nameList t ∧
      ∀ col, getCol t gname = some col →
        getCol y gname = some ⟨gname, Dtype.object, genderCells col.cells⟩ ∧
        (genderCells col.cells).length = col.cells.length) ∧
    (∀ t y, standardize_state t = some y →
      (∀ m, m ≠ sname → getCol y m = getCol t m) ∧ nameList y = nameList t ∧
      ∀ col, getCol t sname = some col →
        getCol y sname = some ⟨sname, Dtype.object, stateCells col.cells⟩ ∧
        (stateCells col.cells).length = col.cells.length) ∧
    (∀ t y, standardize_education t = some y →
      (∀ m, m ≠ ename → getCol y m = getCol t m) ∧ nameList y = nameList t ∧
      ∀ col, getCol t ename = some col →
        getCol y ename = some ⟨ename, Dtype.object, educationCells col.cells⟩ ∧
        (educationCells col.cells).length = col.cells.length) ∧
    (∀ t y, standardize_vehicle_class t = some y →
      (∀ m, m ≠ vname → getCol y m = getCol t m) ∧ nameList y = nameList t ∧
      ∀ col, getCol t vname = some col →
        getCol y vname = some ⟨vname, Dtype.object, vehicleCells col.cells⟩ ∧
        (vehicleCells col.cells).length = col.cells.length) := by
  refine ⟨?_, ?_, ?_, ?_⟩
  · intro t y h
    obtain ⟨hf, hn, hcol⟩ := locStage_frame gname genderCells t y h
    exact ⟨hf, hn, fun col hc => ⟨hcol col hc, genderCells_length col.cells⟩⟩
  · intro t y h
    obtain ⟨hf, hn, hcol⟩ := locStage_frame sname stateCells t y h
    exact ⟨hf, hn, fun col hc => ⟨hcol col hc, stateCells_length col.cells⟩⟩
  · intro t y h
    obtain ⟨hf, hn, hcol⟩ := locStage_frame ename educationCells t y h
    exact ⟨hf, hn, fun col hc => ⟨hcol col hc, educationCells_length col.cells⟩⟩
  · intro t y h
    obtain ⟨hf, hn, hcol⟩ := locStage_frame vname vehicleCells t y h
    exact ⟨hf, hn, fun col hc => ⟨hcol col hc, vehicleCells_length col.cells⟩⟩

/-- Claim C10, witness: the gender stage leaves an absent state column
untouched on a concrete table. -/
theorem claim_C10_witness :
    getCol genderTableOnce sname = getCol genderTable sname :=
  (claim_C10_theorem.1 genderTable genderTableOnce (by decide)).1 sname (by decide)
